import Mathlib

/-!
Verification development for the extraction engine of a browser extension
that collects title+link items from list pages of a GitHub-like site.

The embedding below is a shallow model of the content script
(`extractLinks`, `extractNumber`, the `EXTRACTORS` table, `genericExtract`,
`PAGE_RULES`, `detectPage`, `getContextInfo`, `extractItems`).

Modelling conventions:
* The DOM is a list of candidate elements in document order; each element
  records its tag, id, classes, attributes, text content and the chain of
  its ancestors (outermost first).  `querySelectorAll` is a filter over
  that list with a decidable model of the CSS selectors that appear in the
  source.
* JavaScript strings are Lean `String`s (code points instead of UTF-16
  units; identical on ASCII data).  `.trim()` is modelled by dropping
  whitespace on both ends.
* `new URL(href, origin)` is modelled by `resolveHref`, which handles the
  absolute, protocol-relative, root-relative, other-scheme and relative
  forms and fails (`none`, the model of a thrown TypeError) on an
  http(s) href with an empty or ill-formed host.  Host case folding and
  path normalisation are not modelled.
* A thrown exception escaping a function is modelled by an `Option`
  result of `none`.
-/

-- ===== JavaScript string primitives (list-based so that the kernel
-- ===== evaluates them readily) =====

/-- Model of the JS test `s.startsWith(p)`. -/
def jsStarts (s p : String) : Bool := p.toList.isPrefixOf s.toList

/-- Model of the JS regex fragment `p$` (literal suffix). -/
def jsEnds (s p : String) : Bool := p.toList.isSuffixOf s.toList

/-- Model of `String.prototype.trim` (strip whitespace on both ends). -/
def jsTrim (s : String) : String :=
  String.mk (((s.toList.dropWhile Char.isWhitespace).reverse.dropWhile
    Char.isWhitespace).reverse)

/-- Model of the JS `s.length` on ASCII data. -/
def jsLen (s : String) : Nat := s.toList.length

/-- Model of `s.toLowerCase()` on ASCII data. -/
def jsLower (s : String) : String := String.mk (s.toList.map Char.toLower)

/-- Does the character list `p` occur as a contiguous run inside `s`
(the model of an unanchored literal regex / `href*=` substring test)? -/
def seqIncl (p : List Char) : List Char → Bool
  | [] => p.isEmpty
  | c :: t => p.isPrefixOf (c :: t) || seqIncl p t

/-- Substring containment on strings. -/
def strIncl (s p : String) : Bool := seqIncl p.toList s.toList

/-- Does some suffix of the list satisfy `f` (regex scanning: leftmost
position search tries the pattern at every position)? -/
def scanSuffixes (f : List Char → Bool) : List Char → Bool
  | [] => f []
  | c :: t => f (c :: t) || scanSuffixes f t

/-- JS `\w` character class. -/
def isWordChar (c : Char) : Bool := c.isAlphanum || c == '_'

/-- After the first `n` characters of `l`, is there a `\b` boundary
(end of input or a non-word character)? -/
def boundaryAfter (n : Nat) (l : List Char) : Bool :=
  match (l.drop n).head? with
  | none => true
  | some c => !isWordChar c

/-- The literal `w` occurs with a `\b` boundary after it. -/
def containsWordB (s w : String) : Bool :=
  scanSuffixes (fun l => w.toList.isPrefixOf l && boundaryAfter w.toList.length l)
    s.toList

/-- The literal `p` occurs at the start of `s` with a `\b` boundary
after it (regex `^p\b`). -/
def startsWordB (s p : String) : Bool :=
  p.toList.isPrefixOf s.toList && boundaryAfter p.toList.length s.toList

/-- The literal `p` occurs, immediately followed by at least one digit
(regex `p\d`, used for `\d+` right after a literal). -/
def pfxThenDigit (p : String) (l : List Char) : Bool :=
  p.toList.isPrefixOf l &&
    (match (l.drop p.toList.length).head? with
     | some c => c.isDigit
     | none => false)

-- ===== URL resolution: model of `new URL(href, origin)` =====

/-- The three properties of a WHATWG `URL` object that the source reads:
`origin`, `pathname` and `href`. -/
structure ResolvedUrl where
  origin : String
  pathname : String
  href : String
deriving DecidableEq, Repr

/-- Split a serialized path-query-fragment tail at the first `?` or `#`. -/
def splitPathQ (l : List Char) : String × String :=
  (String.mk (l.takeWhile (fun c => c != '?' && c != '#')),
   String.mk (l.dropWhile (fun c => c != '?' && c != '#')))

/-- A character ending the host portion of an authority. -/
def hostStop (c : Char) : Bool := c == '/' || c == '?' || c == '#'

/-- Characters that make an http(s) host invalid (the URL constructor
throws); a coarse model sufficient for the hrefs considered here. -/
def badHostChar (c : Char) : Bool := c == ' ' || c == '[' || c == ']' || c == '\\'

/-- Parse an absolute http(s) URL given its scheme (with `//`) and the
characters after it; `none` models the constructor throwing. -/
def parseHttpAbs (scheme : String) (after : List Char) : Option ResolvedUrl :=
  let host := after.takeWhile (fun c => !hostStop c)
  if host.isEmpty || host.any badHostChar then none
  else
    let tail := after.drop host.length
    let (p, r) := splitPathQ tail
    let path := if p == "" then "/" else p
    let origin := scheme ++ String.mk host
    some { origin := origin, pathname := path, href := origin ++ path ++ r }

/-- The scheme (with trailing colon) of a serialized origin. -/
def schemeOfOrigin (origin : String) : String :=
  String.mk (origin.toList.takeWhile (fun c => c != '/'))

/-- Valid characters of a URL scheme after its first letter. -/
def schemeChar (c : Char) : Bool := c.isAlphanum || c == '+' || c == '.' || c == '-'

/-- Does the string begin with `scheme:` before any `/`, `?` or `#`? -/
def hasSchemeAhead : List Char → Bool
  | [] => false
  | c :: rest =>
    c.isAlpha &&
      ((rest.drop (rest.takeWhile schemeChar).length).head? == some ':')

/-- Model of `new URL(href, origin)` restricted to what the source needs.
The base is always a bare origin (the source resolves against
`window.location.origin`), so relative references resolve against path
`/`.  `none` models a thrown `TypeError` (malformed absolute href). -/
def resolveHref (href : String) (origin : String) : Option ResolvedUrl :=
  if jsStarts href "https://" then parseHttpAbs "https://" (href.toList.drop 8)
  else if jsStarts href "http://" then parseHttpAbs "http://" (href.toList.drop 7)
  else if jsStarts href "//" then
    parseHttpAbs (schemeOfOrigin origin ++ "//") (href.toList.drop 2)
  else if jsStarts href "/" then
    let (p, r) := splitPathQ href.toList
    some { origin := origin, pathname := p, href := origin ++ p ++ r }
  else if hasSchemeAhead href.toList then
    let after := (href.toList.dropWhile (fun c => c != ':')).drop 1
    let (p, _) := splitPathQ after
    some { origin := "null", pathname := p, href := href }
  else
    let (p, r) := splitPathQ href.toList
    some { origin := origin, pathname := "/" ++ p, href := origin ++ "/" ++ p ++ r }

-- ===== DOM model =====

/-- One DOM node as far as selector matching is concerned. -/
structure DomNode where
  tag : String := ""
  id : String := ""
  classes : List String := []
  attrs : List (String × String) := []
deriving DecidableEq, Repr

/-- A candidate element: its own node data, its text content, and its
ancestor chain listed outermost first. -/
structure Elem where
  node : DomNode
  text : String := ""
  ancestors : List DomNode := []
deriving DecidableEq, Repr

/-- A document is its element list in document order. -/
def Doc := List Elem

/-- Model of `element.getAttribute(k)`. -/
def getAttr (e : Elem) (k : String) : Option String := e.node.attrs.lookup k

/-- One simple condition inside a CSS compound selector. -/
inductive SimpleCond where
  | tagIs (t : String)
  | cls (c : String)
  | idIs (i : String)
  | idPfx (p : String)
  | attrHas (k : String)
  | attrEq (k v : String)
  | attrPfx (k v : String)
  | attrIncl (k v : String)
deriving DecidableEq, Repr

/-- Evaluate a simple condition on a node. -/
def condHolds (c : SimpleCond) (n : DomNode) : Bool :=
  match c with
  | .tagIs t => n.tag == t
  | .cls s => n.classes.contains s
  | .idIs i => n.id == i
  | .idPfx p => p.toList.isPrefixOf n.id.toList
  | .attrHas k => (n.attrs.lookup k).isSome
  | .attrEq k v => n.attrs.lookup k == some v
  | .attrPfx k v =>
    match n.attrs.lookup k with
    | some w => v.toList.isPrefixOf w.toList
    | none => false
  | .attrIncl k v =>
    match n.attrs.lookup k with
    | some w => strIncl w v
    | none => false

/-- A compound selector: all conditions on one element. -/
def compHolds (cs : List SimpleCond) (n : DomNode) : Bool := cs.all (condHolds · n)

/-- A CSS selector with descendant combinators: conditions on a chain of
ancestors (outermost first) and on the target element itself. -/
structure Sel where
  ancParts : List (List SimpleCond)
  target : List SimpleCond
deriving Repr

/-- Do the ancestor compounds match an ordered subchain of the ancestor
list (outermost first)? -/
def ancChain (parts : List (List SimpleCond)) : List DomNode → Bool
  | [] => parts.isEmpty
  | a :: rest =>
    match parts with
    | [] => true
    | p :: ps => (compHolds p a && ancChain ps rest) || ancChain (p :: ps) rest

/-- Does the element match the selector? -/
def selMatches (s : Sel) (e : Elem) : Bool :=
  compHolds s.target e.node && ancChain s.ancParts e.ancestors

/-- Model of `root.querySelectorAll(sel)`, in document order. -/
def querySelAll (doc : Doc) (s : Sel) : List Elem :=
  List.filter (selMatches s) doc

/-- Model of `link.closest(sel-list)`: the element itself or some
ancestor matches one of the compound selectors. -/
def closestAny (parts : List (List SimpleCond)) (e : Elem) : Bool :=
  parts.any (fun p => compHolds p e.node) ||
    e.ancestors.any (fun a => parts.any (fun p => compHolds p a))

/-- Selector with no ancestor part. -/
def sel0 (t : List SimpleCond) : Sel := ⟨[], t⟩

/-- Selector `anc target` (one descendant combinator). -/
def selD (a t : List SimpleCond) : Sel := ⟨[a], t⟩

/-- Selector `anc1 anc2 target` (two descendant combinators). -/
def selDD (a b t : List SimpleCond) : Sel := ⟨[a, b], t⟩

-- ===== The window location =====

/-- The parts of `window.location` the source reads. -/
structure Loc where
  origin : String
  pathname : String
  search : String
  hash : String := ""
deriving DecidableEq, Repr

/-- Model of `window.location.href`. -/
def Loc.hrefStr (l : Loc) : String := l.origin ++ l.pathname ++ l.search ++ l.hash

-- ===== Number parsing: `extractNumber` =====

/-- The characters of the literal alternatives in the number regex. -/
def pullSeg : List Char := "/pull/".toList

/-- The issues alternative of the number regex. -/
def issuesSeg : List Char := "/issues/".toList

/-- Try the regex `\/(?:pull|issues)\/(\d+)` at the head of the list:
returns the captured digit run on success. -/
def pullIssueAt (l : List Char) : Option (List Char) :=
  if pullSeg.isPrefixOf l then
    if ((l.drop 6).takeWhile Char.isDigit).isEmpty then none
    else some ((l.drop 6).takeWhile Char.isDigit)
  else if issuesSeg.isPrefixOf l then
    if ((l.drop 8).takeWhile Char.isDigit).isEmpty then none
    else some ((l.drop 8).takeWhile Char.isDigit)
  else none

/-- Leftmost match of `\/(?:pull|issues)\/(\d+)`: scan positions left to
right and return the first capture. -/
def findPI : List Char → Option (List Char)
  | [] => none
  | c :: rest =>
    match pullIssueAt (c :: rest) with
    | some ds => some ds
    | none => findPI rest

/-- Model of the source function `extractNumber`:
`href.match(/\/(?:pull|issues)\/(\d+)/)` and a `#` prefix on the capture. -/
def extractNumber (href : String) : Option String :=
  (findPI href.toList).map (fun ds => "#" ++ String.mk ds)

-- ===== The href filter regexes of the specific extractors =====

/-- Regex `\/(pull|issues)\/\d+` (issueOrPr and milestone filter). -/
def patPullIssues (s : String) : Bool := (findPI s.toList).isSome

/-- Regex `\/milestone\//` filter. -/
def patMilestonePath (s : String) : Bool := strIncl s "/milestone/"

/-- Regex `\/projects\//` filter. -/
def patProjectsPath (s : String) : Bool := strIncl s "/projects/"

/-- Regex `^\/[^\/]+\/[^\/]+\/?$` (repositories filter). -/
def patRepoShape (s : String) : Bool :=
  match s.toList with
  | '/' :: rest =>
    let a := rest.takeWhile (fun c => c != '/')
    let r1 := rest.drop a.length
    if a.isEmpty then false
    else
      match r1 with
      | '/' :: rest2 =>
        let b := rest2.takeWhile (fun c => c != '/')
        let r2 := rest2.drop b.length
        !b.isEmpty && (r2 == [] || r2 == ['/'])
      | _ => false
  | _ => false

/-- Regex `\/releases\/tag\//` filter. -/
def patReleasesTag (s : String) : Bool := strIncl s "/releases/tag/"

/-- Regex `\/tree\//` filter. -/
def patTreePath (s : String) : Bool := strIncl s "/tree/"

/-- Regex `\/discussions\/\d+` filter. -/
def patDiscussions (s : String) : Bool :=
  scanSuffixes (pfxThenDigit "/discussions/") s.toList

/-- Regex `\/commit\//` filter. -/
def patCommitPath (s : String) : Bool := strIncl s "/commit/"

/-- Regex `\/actions\/runs\//` filter. -/
def patActionsRuns (s : String) : Bool := strIncl s "/actions/runs/"

/-- Regex `\/packages\//` filter. -/
def patPackagesPath (s : String) : Bool := strIncl s "/packages/"

-- ===== The Link Collector: `extractLinks` =====

/-- One extracted record. -/
structure Item where
  title : String
  url : String
  number : Option String
deriving DecidableEq, Repr

/-- The body of one `extractLinks` iteration after the seen-set guard:
the pattern test, the title test and the URL resolution, none of which
read the seen set.  `none` models an uncaught TypeError from `new URL`
(no try/catch in the source), `some none` a `continue`, and
`some (some (href, item))` a push. -/
def collectStepCore (pat : Option (String → Bool)) (loc : Loc) (href : String)
    (e : Elem) : Option (Option (String × Item)) :=
  if (match pat with | some p => !p href | none => false) then some none
  else if jsTrim e.text == "" then some none
  else
    match resolveHref href loc.origin with
    | none => none
    | some u =>
      some (some (href,
        { title := jsTrim e.text, url := u.href, number := extractNumber href }))

/-- One iteration of the `extractLinks` loop body on element `e`: the
missing/empty-href and seen-set guards, then the seen-independent rest
of the body. -/
def collectStep (pat : Option (String → Bool)) (loc : Loc) (seen : List String)
    (e : Elem) : Option (Option (String × Item)) :=
  match getAttr e "href" with
  | none => some none
  | some href =>
    if href == "" || seen.contains href then some none
    else collectStepCore pat loc href e

/-- The `extractLinks` loops over the flattened per-selector element
lists, threading the seen set and the item accumulator. -/
def collectGo (pat : Option (String → Bool)) (loc : Loc) :
    List Elem → List String → List Item → Option (List Item)
  | [], _, acc => some acc
  | e :: rest, seen, acc =>
    match collectStep pat loc seen e with
    | none => none
    | some none => collectGo pat loc rest seen acc
    | some (some (href, it)) => collectGo pat loc rest (href :: seen) (acc ++ [it])

/-- Model of the source function `extractLinks(doc, selectors, hrefPattern)`:
for each selector in order, iterate its matches in document order; dedup
on the raw href via the seen set; resolve against the page origin. -/
def extractLinks (doc : Doc) (selectors : List Sel) (pat : Option (String → Bool))
    (loc : Loc) : Option (List Item) :=
  collectGo pat loc ((selectors.map (querySelAll doc)).flatten) [] []

-- ===== Specific extractor selector tables (transcribed from the
-- ===== EXTRACTORS object; each line comments the source selector) =====

/-- Selector list of `EXTRACTORS.issueOrPr`. -/
def issueOrPrSelectors : List Sel := [
  -- [id^="issue_"] .Link--primary
  selD [.idPfx "issue_"] [.cls "Link--primary"],
  -- [id^="issue_"] a.markdown-title
  selD [.idPfx "issue_"] [.tagIs "a", .cls "markdown-title"],
  -- [id^="issue_"] a.js-navigation-open
  selD [.idPfx "issue_"] [.tagIs "a", .cls "js-navigation-open"],
  -- .js-issue-row .Link--primary
  selD [.cls "js-issue-row"] [.cls "Link--primary"],
  -- .js-issue-row a.markdown-title
  selD [.cls "js-issue-row"] [.tagIs "a", .cls "markdown-title"],
  -- .js-issue-row a.js-navigation-open
  selD [.cls "js-issue-row"] [.tagIs "a", .cls "js-navigation-open"],
  -- [data-testid="issue-row"] a[data-testid="issue-title-link"]
  selD [.attrEq "data-testid" "issue-row"] [.tagIs "a", .attrEq "data-testid" "issue-title-link"],
  -- [data-testid="list-row"] a[data-testid="issue-title-link"]
  selD [.attrEq "data-testid" "list-row"] [.tagIs "a", .attrEq "data-testid" "issue-title-link"],
  -- [data-testid="list-row"] a[data-testid="pull-request-title-link"]
  selD [.attrEq "data-testid" "list-row"] [.tagIs "a", .attrEq "data-testid" "pull-request-title-link"],
  -- .js-navigation-container .Link--primary[href*="/pull/"]
  selD [.cls "js-navigation-container"] [.cls "Link--primary", .attrIncl "href" "/pull/"],
  -- .js-navigation-container .Link--primary[href*="/issues/"]
  selD [.cls "js-navigation-container"] [.cls "Link--primary", .attrIncl "href" "/issues/"],
  -- .js-issue-row a[data-hovercard-type="pull_request"]
  selD [.cls "js-issue-row"] [.tagIs "a", .attrEq "data-hovercard-type" "pull_request"],
  -- .js-issue-row a[data-hovercard-type="issue"]
  selD [.cls "js-issue-row"] [.tagIs "a", .attrEq "data-hovercard-type" "issue"],
  -- .listRow a.Link--primary[href*="/issues/"]
  selD [.cls "listRow"] [.tagIs "a", .cls "Link--primary", .attrIncl "href" "/issues/"],
  -- .listRow a.Link--primary[href*="/pull/"]
  selD [.cls "listRow"] [.tagIs "a", .cls "Link--primary", .attrIncl "href" "/pull/"],
  -- div[data-id] a.Link--primary[href*="/issues/"]
  selD [.tagIs "div", .attrHas "data-id"] [.tagIs "a", .cls "Link--primary", .attrIncl "href" "/issues/"],
  -- div[data-id] a.Link--primary[href*="/pull/"]
  selD [.tagIs "div", .attrHas "data-id"] [.tagIs "a", .cls "Link--primary", .attrIncl "href" "/pull/"],
  -- a.markdown-title[href*="/pull/"]
  sel0 [.tagIs "a", .cls "markdown-title", .attrIncl "href" "/pull/"],
  -- a.markdown-title[href*="/issues/"]
  sel0 [.tagIs "a", .cls "markdown-title", .attrIncl "href" "/issues/"],
  -- a.js-navigation-open[href*="/pull/"]
  sel0 [.tagIs "a", .cls "js-navigation-open", .attrIncl "href" "/pull/"],
  -- a.js-navigation-open[href*="/issues/"]
  sel0 [.tagIs "a", .cls "js-navigation-open", .attrIncl "href" "/issues/"]]

/-- Selector list of `EXTRACTORS.milestone`. -/
def milestoneSelectors : List Sel := [
  -- [id^="issue_"] a.markdown-title
  selD [.idPfx "issue_"] [.tagIs "a", .cls "markdown-title"],
  -- [id^="issue_"] a.js-navigation-open
  selD [.idPfx "issue_"] [.tagIs "a", .cls "js-navigation-open"],
  -- [id^="issue_"] .Link--primary
  selD [.idPfx "issue_"] [.cls "Link--primary"],
  -- .js-issue-row a.markdown-title
  selD [.cls "js-issue-row"] [.tagIs "a", .cls "markdown-title"],
  -- .js-issue-row a.js-navigation-open
  selD [.cls "js-issue-row"] [.tagIs "a", .cls "js-navigation-open"],
  -- .js-issue-row .Link--primary
  selD [.cls "js-issue-row"] [.cls "Link--primary"],
  -- [data-testid="issue-row"] a[data-testid="issue-title-link"]
  selD [.attrEq "data-testid" "issue-row"] [.tagIs "a", .attrEq "data-testid" "issue-title-link"],
  -- [data-testid="list-row"] a[data-testid="issue-title-link"]
  selD [.attrEq "data-testid" "list-row"] [.tagIs "a", .attrEq "data-testid" "issue-title-link"],
  -- [data-testid="list-row"] a[data-testid="pull-request-title-link"]
  selD [.attrEq "data-testid" "list-row"] [.tagIs "a", .attrEq "data-testid" "pull-request-title-link"],
  -- div[data-id] a.Link--primary[href*="/issues/"]
  selD [.tagIs "div", .attrHas "data-id"] [.tagIs "a", .cls "Link--primary", .attrIncl "href" "/issues/"],
  -- div[data-id] a.Link--primary[href*="/pull/"]
  selD [.tagIs "div", .attrHas "data-id"] [.tagIs "a", .cls "Link--primary", .attrIncl "href" "/pull/"],
  -- a.markdown-title[href*="/pull/"]
  sel0 [.tagIs "a", .cls "markdown-title", .attrIncl "href" "/pull/"],
  -- a.markdown-title[href*="/issues/"]
  sel0 [.tagIs "a", .cls "markdown-title", .attrIncl "href" "/issues/"],
  -- a.js-navigation-open[href*="/pull/"]
  sel0 [.tagIs "a", .cls "js-navigation-open", .attrIncl "href" "/pull/"],
  -- a.js-navigation-open[href*="/issues/"]
  sel0 [.tagIs "a", .cls "js-navigation-open", .attrIncl "href" "/issues/"]]

/-- Selector list of `EXTRACTORS.milestonesList`. -/
def milestonesListSelectors : List Sel := [
  -- a.Link--primary[href*="/milestone/"]
  sel0 [.tagIs "a", .cls "Link--primary", .attrIncl "href" "/milestone/"],
  -- a[href*="/milestone/"].Link--primary
  sel0 [.tagIs "a", .attrIncl "href" "/milestone/", .cls "Link--primary"]]

/-- Selector list of `EXTRACTORS.projects`. -/
def projectsSelectors : List Sel := [
  -- a.Link--primary[href*="/projects/"]
  sel0 [.tagIs "a", .cls "Link--primary", .attrIncl "href" "/projects/"],
  -- a[href*="/projects/"].Link--primary
  sel0 [.tagIs "a", .attrIncl "href" "/projects/", .cls "Link--primary"]]

/-- Selector list of `EXTRACTORS.repositories`. -/
def repositoriesSelectors : List Sel := [
  -- [itemprop="name codeRepository"] a
  selD [.attrEq "itemprop" "name codeRepository"] [.tagIs "a"],
  -- a[itemprop="name codeRepository"]
  sel0 [.tagIs "a", .attrEq "itemprop" "name codeRepository"],
  -- h3 a[href*="/"][data-hovercard-type="repository"]
  selD [.tagIs "h3"] [.tagIs "a", .attrIncl "href" "/", .attrEq "data-hovercard-type" "repository"],
  -- #user-repositories-list h3 a
  selDD [.idIs "user-repositories-list"] [.tagIs "h3"] [.tagIs "a"],
  -- .org-repos h3 a
  selDD [.cls "org-repos"] [.tagIs "h3"] [.tagIs "a"],
  -- .repo-list h3 a
  selDD [.cls "repo-list"] [.tagIs "h3"] [.tagIs "a"],
  -- .search-title a[href*="/"]
  selD [.cls "search-title"] [.tagIs "a", .attrIncl "href" "/"],
  -- .d-block h3 a[href*="/"]
  selDD [.cls "d-block"] [.tagIs "h3"] [.tagIs "a", .attrIncl "href" "/"],
  -- article h3 a[href*="/"]
  selDD [.tagIs "article"] [.tagIs "h3"] [.tagIs "a", .attrIncl "href" "/"],
  -- h3 a.Link[href*="/"]
  selD [.tagIs "h3"] [.tagIs "a", .cls "Link", .attrIncl "href" "/"],
  -- a[data-hovercard-type="repository"]
  sel0 [.tagIs "a", .attrEq "data-hovercard-type" "repository"]]

/-- Selector list of `EXTRACTORS.releases`. -/
def releasesSelectors : List Sel := [
  -- .release .Link--primary
  selD [.cls "release"] [.cls "Link--primary"],
  -- [data-testid="release-card"] a.Link--primary
  selD [.attrEq "data-testid" "release-card"] [.tagIs "a", .cls "Link--primary"],
  -- .Box-row h2 a
  selDD [.cls "Box-row"] [.tagIs "h2"] [.tagIs "a"],
  -- a[href*="/releases/tag/"]
  sel0 [.tagIs "a", .attrIncl "href" "/releases/tag/"]]

/-- Selector list of `EXTRACTORS.tags`. -/
def tagsSelectors : List Sel := [
  -- .Box-row a.Link--primary[href*="/tree/"]
  selD [.cls "Box-row"] [.tagIs "a", .cls "Link--primary", .attrIncl "href" "/tree/"],
  -- .Box-row h4 a
  selDD [.cls "Box-row"] [.tagIs "h4"] [.tagIs "a"],
  -- a.Link--primary[href*="/releases/tag/"]
  sel0 [.tagIs "a", .cls "Link--primary", .attrIncl "href" "/releases/tag/"]]

/-- Selector list of `EXTRACTORS.branches`. -/
def branchesSelectors : List Sel := [
  -- .branch-name a
  selD [.cls "branch-name"] [.tagIs "a"],
  -- a[href*="/tree/"].branch-name
  sel0 [.tagIs "a", .attrIncl "href" "/tree/", .cls "branch-name"],
  -- .Box-row a.Link--primary[href*="/tree/"]
  selD [.cls "Box-row"] [.tagIs "a", .cls "Link--primary", .attrIncl "href" "/tree/"]]

/-- Selector list of `EXTRACTORS.discussions`. -/
def discussionsSelectors : List Sel := [
  -- a[data-hovercard-type="discussion"]
  sel0 [.tagIs "a", .attrEq "data-hovercard-type" "discussion"],
  -- .Link--primary[href*="/discussions/"]
  sel0 [.cls "Link--primary", .attrIncl "href" "/discussions/"]]

/-- Selector list of `EXTRACTORS.commits`. -/
def commitsSelectors : List Sel := [
  -- a.Link--primary[href*="/commit/"]
  sel0 [.tagIs "a", .cls "Link--primary", .attrIncl "href" "/commit/"],
  -- .js-commits-list-item a.Link--primary
  selD [.cls "js-commits-list-item"] [.tagIs "a", .cls "Link--primary"],
  -- .TimelineItem a.Link--primary[href*="/commit/"]
  selD [.cls "TimelineItem"] [.tagIs "a", .cls "Link--primary", .attrIncl "href" "/commit/"]]

/-- Selector list of `EXTRACTORS.actions`. -/
def actionsSelectors : List Sel := [
  -- .Box-row a.Link--primary[href*="/actions/runs/"]
  selD [.cls "Box-row"] [.tagIs "a", .cls "Link--primary", .attrIncl "href" "/actions/runs/"],
  -- a[href*="/actions/runs/"].Link--primary
  sel0 [.tagIs "a", .attrIncl "href" "/actions/runs/", .cls "Link--primary"]]

/-- Selector list of `EXTRACTORS.packages`. -/
def packagesSelectors : List Sel := [
  -- a.Link--primary[href*="/packages/"]
  sel0 [.tagIs "a", .cls "Link--primary", .attrIncl "href" "/packages/"]]

/-- Selector list of `EXTRACTORS.gists`. -/
def gistsSelectors : List Sel := [
  -- .gist-snippet .Link--primary
  selD [.cls "gist-snippet"] [.cls "Link--primary"],
  -- a.Link--primary[href*="gist.github.com"]
  sel0 [.tagIs "a", .cls "Link--primary", .attrIncl "href" "gist.github.com"],
  -- .css-truncate a[href*="/"]
  selD [.cls "css-truncate"] [.tagIs "a", .attrIncl "href" "/"]]

/-- The `EXTRACTORS` object: key order is the source insertion order,
which `Object.keys` preserves for the exhaustive retry loop. -/
def EXTRACTORS : List (String × (Doc → Loc → Option (List Item))) := [
  ("issueOrPr", fun d l => extractLinks d issueOrPrSelectors (some patPullIssues) l),
  ("milestone", fun d l => extractLinks d milestoneSelectors (some patPullIssues) l),
  ("milestonesList", fun d l => extractLinks d milestonesListSelectors (some patMilestonePath) l),
  ("projects", fun d l => extractLinks d projectsSelectors (some patProjectsPath) l),
  ("repositories", fun d l => extractLinks d repositoriesSelectors (some patRepoShape) l),
  ("releases", fun d l => extractLinks d releasesSelectors (some patReleasesTag) l),
  ("tags", fun d l => extractLinks d tagsSelectors none l),
  ("branches", fun d l => extractLinks d branchesSelectors (some patTreePath) l),
  ("discussions", fun d l => extractLinks d discussionsSelectors (some patDiscussions) l),
  ("commits", fun d l => extractLinks d commitsSelectors (some patCommitPath) l),
  ("actions", fun d l => extractLinks d actionsSelectors (some patActionsRuns) l),
  ("packages", fun d l => extractLinks d packagesSelectors (some patPackagesPath) l),
  ("gists", fun d l => extractLinks d gistsSelectors none l)]

-- ===== Generic Fallback Extractor: `genericExtract` =====

/-- The candidate selector list of `genericExtract` (the source joins
these with commas into one `querySelectorAll` call). -/
def genericCandidates : List Sel := [
  -- a.Link--primary
  sel0 [.tagIs "a", .cls "Link--primary"],
  -- a.markdown-title
  sel0 [.tagIs "a", .cls "markdown-title"],
  -- a.js-navigation-open
  sel0 [.tagIs "a", .cls "js-navigation-open"],
  -- a[data-hovercard-type]
  sel0 [.tagIs "a", .attrHas "data-hovercard-type"],
  -- .Box-row a[href^="/"]
  selD [.cls "Box-row"] [.tagIs "a", .attrPfx "href" "/"],
  -- [role="row"] a[href^="/"]
  selD [.attrEq "role" "row"] [.tagIs "a", .attrPfx "href" "/"],
  -- [id^="issue_"] a[href^="/"]
  selD [.idPfx "issue_"] [.tagIs "a", .attrPfx "href" "/"],
  -- .js-issue-row a[href^="/"]
  selD [.cls "js-issue-row"] [.tagIs "a", .attrPfx "href" "/"],
  -- [data-testid] a[href^="/"]
  selD [.attrHas "data-testid"] [.tagIs "a", .attrPfx "href" "/"],
  -- h1 a[href^="/"]
  selD [.tagIs "h1"] [.tagIs "a", .attrPfx "href" "/"],
  -- h2 a[href^="/"]
  selD [.tagIs "h2"] [.tagIs "a", .attrPfx "href" "/"],
  -- h3 a[href^="/"]
  selD [.tagIs "h3"] [.tagIs "a", .attrPfx "href" "/"],
  -- h4 a[href^="/"]
  selD [.tagIs "h4"] [.tagIs "a", .attrPfx "href" "/"],
  -- li a[href^="/"]
  selD [.tagIs "li"] [.tagIs "a", .attrPfx "href" "/"],
  -- article a[href^="/"]
  selD [.tagIs "article"] [.tagIs "a", .attrPfx "href" "/"]]

/-- The non-content route prefixes excluded by `genericExtract`
(regex `^\/(settings|login|...)\b` on the resolved pathname). -/
def genericDenyWords : List String :=
  ["settings", "login", "signup", "features", "pricing", "enterprise",
   "sponsors", "about", "security", "notifications", "new", "codespaces"]

/-- The deny regex `^\/(...)\b` on a pathname. -/
def genericDenyPath (path : String) : Bool :=
  genericDenyWords.any (fun w => startsWordB path ("/" ++ w))

/-- The static asset test `\.(png|jpg|svg|gif|ico|css|js)$` (case
insensitive) on a pathname. -/
def assetPath (path : String) : Bool :=
  [".png", ".jpg", ".svg", ".gif", ".ico", ".css", ".js"].any
    (fun e => jsEnds (jsLower path) e)

/-- The `isTitle` heuristic of `genericExtract`. -/
def isTitleLink (e : Elem) : Bool :=
  e.node.classes.contains "Link--primary" ||
  e.node.classes.contains "markdown-title" ||
  e.node.classes.contains "js-navigation-open" ||
  (getAttr e "data-hovercard-type").isSome ||
  -- link.closest("h1, h2, h3, h4")
  closestAny [[.tagIs "h1"], [.tagIs "h2"], [.tagIs "h3"], [.tagIs "h4"]] e ||
  -- link.closest(".Box-row, [role="row"], .js-issue-row, [id^="issue_"], [data-testid], article")
  closestAny [[.cls "Box-row"], [.attrEq "role" "row"], [.cls "js-issue-row"],
    [.idPfx "issue_"], [.attrHas "data-testid"], [.tagIs "article"]] e

/-- The body of one `genericExtract` iteration after the seen-set
guard: the anchor/current-path tests, the guarded URL resolution, the
origin, deny, asset, title-length and isTitle filters, none of which
read the seen set.  `none` is a `continue` (including the caught URL
TypeError), `some (href, item)` a push. -/
def genericStepCore (loc : Loc) (href : String) (e : Elem) :
    Option (String × Item) :=
  if href == "#" || href == loc.pathname then none
  else if jsStarts href "#" then none
  else
    match resolveHref href loc.origin with
    | none => none
    | some u =>
      if u.origin != loc.origin then none
      else if genericDenyPath u.pathname then none
      else if assetPath u.pathname then none
      else if jsTrim e.text == "" || jsLen (jsTrim e.text) < 3 ||
          jsLen (jsTrim e.text) > 300 then none
      else if !isTitleLink e then none
      else some (href,
        { title := jsTrim e.text, url := u.href, number := extractNumber href })

/-- One iteration of the `genericExtract` loop body on element `e`: the
missing/empty-href and seen-set guards, then the seen-independent rest
of the body. -/
def genericStep (loc : Loc) (seen : List String) (e : Elem) :
    Option (String × Item) :=
  match getAttr e "href" with
  | none => none
  | some href =>
    if href == "" || seen.contains href then none
    else genericStepCore loc href e

/-- The `genericExtract` loop, threading the seen set and accumulator. -/
def genericGo (loc : Loc) : List Elem → List String → List Item → List Item
  | [], _, acc => acc
  | e :: rest, seen, acc =>
    match genericStep loc seen e with
    | none => genericGo loc rest seen acc
    | some (href, it) => genericGo loc rest (href :: seen) (acc ++ [it])

/-- Model of the source function `genericExtract(doc)`. -/
def genericExtract (doc : Doc) (loc : Loc) : List Item :=
  genericGo loc
    (List.filter (fun e => genericCandidates.any (fun s => selMatches s e)) doc)
    [] []

-- ===== Page Detection =====

/-- One row of the `PAGE_RULES` table. -/
structure PageRule where
  pattern : String → Bool
  type : Option String
  label : String

/-- The classifier result. -/
structure Page where
  type : Option String
  label : String
deriving DecidableEq, Repr

/-- The ordered `PAGE_RULES` table (each pattern comments its regex). -/
def PAGE_RULES : List PageRule := [
  -- /\/milestones\/?$/
  ⟨fun s => jsEnds s "/milestones" || jsEnds s "/milestones/", some "milestonesList", "Milestones"⟩,
  -- /\/milestone\/\d+/
  ⟨fun s => scanSuffixes (pfxThenDigit "/milestone/") s.toList, some "milestone", "Milestone"⟩,
  -- /\/pulls\b/
  ⟨fun s => containsWordB s "/pulls", some "issueOrPr", "Pull Requests"⟩,
  -- /\/issues\b/
  ⟨fun s => containsWordB s "/issues", some "issueOrPr", "Issues"⟩,
  -- /\/projects\b/
  ⟨fun s => containsWordB s "/projects", some "projects", "Projects"⟩,
  -- /\/discussions\b/
  ⟨fun s => containsWordB s "/discussions", some "discussions", "Discussions"⟩,
  -- /\/releases\b/
  ⟨fun s => containsWordB s "/releases", some "releases", "Releases"⟩,
  -- /\/tags\b/
  ⟨fun s => containsWordB s "/tags", some "tags", "Tags"⟩,
  -- /\/branches\b/
  ⟨fun s => containsWordB s "/branches", some "branches", "Branches"⟩,
  -- /\/commits\b/
  ⟨fun s => containsWordB s "/commits", some "commits", "Commits"⟩,
  -- /\/actions\b/
  ⟨fun s => containsWordB s "/actions", some "actions", "Actions"⟩,
  -- /\/packages\b/
  ⟨fun s => containsWordB s "/packages", some "packages", "Packages"⟩,
  -- /\?tab=repositories/
  ⟨fun s => strIncl s "?tab=repositories", some "repositories", "Repositories"⟩,
  -- /\/orgs\/[^/]+\/repositories/
  ⟨fun s => scanSuffixes (fun l =>
      "/orgs/".toList.isPrefixOf l &&
        (let rest := l.drop 6
         let seg := rest.takeWhile (fun c => c != '/')
         !seg.isEmpty && "/repositories".toList.isPrefixOf (rest.drop seg.length)))
      s.toList, some "repositories", "Repositories"⟩,
  -- /\/search/
  ⟨fun s => strIncl s "/search", none, "Search Results"⟩,
  -- /\/trending/
  ⟨fun s => strIncl s "/trending", some "repositories", "Trending"⟩,
  -- /\/explore/
  ⟨fun s => strIncl s "/explore", some "repositories", "Explore"⟩,
  -- /\/stars/
  ⟨fun s => strIncl s "/stars", some "repositories", "Stars"⟩,
  -- /gist\.github\.com/
  ⟨fun s => strIncl s "gist.github.com", some "gists", "Gists"⟩]

/-- The first-match loop of `detectPage` over a rule list. -/
def detectGo (full : String) : List PageRule → Page
  | [] => ⟨none, "Items"⟩
  | r :: rest => if r.pattern full then ⟨r.type, r.label⟩ else detectGo full rest

/-- Model of the source function `detectPage()`: first matching rule on
`pathname + search`, else the generic `(null, "Items")`. -/
def detectPage (loc : Loc) : Page :=
  detectGo (loc.pathname ++ loc.search) PAGE_RULES

/-- Repo context record. -/
structure RepoContext where
  owner : String
  repo : String
deriving DecidableEq, Repr

/-- Model of `getContextInfo()`:
`pathname.match(/^\/([^/]+)(?:\/([^/]+))?/)`, with empty strings when a
group is absent. -/
def getContextInfo (loc : Loc) : RepoContext :=
  match loc.pathname.toList with
  | '/' :: rest =>
    let a := rest.takeWhile (fun c => c != '/')
    if a.isEmpty then ⟨"", ""⟩
    else
      let r1 := rest.drop a.length
      match r1 with
      | '/' :: rest2 =>
        let b := rest2.takeWhile (fun c => c != '/')
        ⟨String.mk a, String.mk b⟩
      | _ => ⟨String.mk a, ""⟩
  | _ => ⟨"", ""⟩

-- ===== Extraction Orchestrator: `extractItems` =====

/-- The result record; only the assigned fields of the corresponding JS
object literal are `some`. -/
structure ExtractionResult where
  success : Bool
  pageType : Option String
  pageLabel : Option String
  repo : RepoContext
  items : List Item
  error : Option String
  url : Option String
deriving DecidableEq, Repr

/-- JS `a || b` on a nullable string: the default wins on `null` and on
the empty (falsy) string. -/
def jsOrString (v : Option String) (dflt : String) : String :=
  match v with
  | some t => if t == "" then dflt else t
  | none => dflt

/-- The `if (page.type && EXTRACTORS[page.type])` step: run the specific
extractor of the classified kind, else keep the initial empty list. -/
def runSpecific (doc : Doc) (loc : Loc) (t : Option String) : Option (List Item) :=
  match t with
  | some k =>
    if k == "" then some []
    else
      match EXTRACTORS.lookup k with
      | some f => f doc loc
      | none => some []
  | none => some []

/-- The exhaustive retry loop: run every extractor in table order and
stop at the first non-empty result ([] when all are empty). -/
def tryAllExtractors (doc : Doc) (loc : Loc) :
    List (String × (Doc → Loc → Option (List Item))) → Option (List Item)
  | [] => some []
  | (_, f) :: rest =>
    match f doc loc with
    | none => none
    | some xs => if xs.isEmpty then tryAllExtractors doc loc rest else some xs

/-- The two return statements of `extractItems`: the failure record when
the final item sequence is empty, the success record otherwise. -/
def finishExtract (loc : Loc) (page : Page) (items2 : List Item) : ExtractionResult :=
  if items2.isEmpty then
    { success := false, pageType := none, pageLabel := none,
      repo := getContextInfo loc, items := [],
      error := some "No extractable items found on this page.", url := none }
  else
    { success := true, pageType := some (jsOrString page.type "generic"),
      pageLabel := some page.label, repo := getContextInfo loc,
      items := items2, error := none, url := some loc.hrefStr }

/-- Model of the source function `extractItems()`: classify, run the
specific extractor, retry all extractors, fall back to generic, then
package the result.  `none` models an uncaught exception from
`extractLinks`. -/
def extractItems (doc : Doc) (loc : Loc) : Option ExtractionResult :=
  match runSpecific doc loc (detectPage loc).type with
  | none => none
  | some items0 =>
    match (if items0.isEmpty then tryAllExtractors doc loc EXTRACTORS else some items0) with
    | none => none
    | some items1 =>
      some (finishExtract loc (detectPage loc)
        (if items1.isEmpty then genericExtract doc loc else items1))

-- ===== The older content-script iteration (second source file, first
-- ===== document): same extractLinks/EXTRACTORS/PAGE_RULES, but a
-- ===== narrower genericExtract and no exhaustive retry loop =====

namespace V1

/-- Candidate selectors of the older `genericExtract`. -/
def genericCandidates : List Sel := [
  -- a.Link--primary
  sel0 [.tagIs "a", .cls "Link--primary"],
  -- .Box-row a[href^="/"]
  selD [.cls "Box-row"] [.tagIs "a", .attrPfx "href" "/"],
  -- li a[href^="/"]
  selD [.tagIs "li"] [.tagIs "a", .attrPfx "href" "/"],
  -- [role="row"] a[href^="/"]
  selD [.attrEq "role" "row"] [.tagIs "a", .attrPfx "href" "/"],
  -- a[data-hovercard-type]
  sel0 [.tagIs "a", .attrHas "data-hovercard-type"],
  -- h3 a[href^="/"]
  selD [.tagIs "h3"] [.tagIs "a", .attrPfx "href" "/"],
  -- h4 a[href^="/"]
  selD [.tagIs "h4"] [.tagIs "a", .attrPfx "href" "/"]]

/-- Deny words of the older variant. -/
def genericDenyWords : List String :=
  ["settings", "login", "signup", "features", "pricing", "enterprise", "sponsors"]

/-- Deny regex of the older variant. -/
def genericDenyPath (path : String) : Bool :=
  genericDenyWords.any (fun w => startsWordB path ("/" ++ w))

/-- Asset test `\.(png|jpg|svg|gif|ico)$/i` of the older variant. -/
def assetPath (path : String) : Bool :=
  [".png", ".jpg", ".svg", ".gif", ".ico"].any (fun e => jsEnds (jsLower path) e)

/-- The `isTitle` heuristic of the older variant. -/
def isTitleLink (e : Elem) : Bool :=
  e.node.classes.contains "Link--primary" ||
  -- link.closest("h1, h2, h3, h4")
  closestAny [[.tagIs "h1"], [.tagIs "h2"], [.tagIs "h3"], [.tagIs "h4"]] e ||
  (getAttr e "data-hovercard-type").isSome ||
  -- link.closest(".Box-row, [role="row"], li.Box-row, .js-issue-row, [data-testid]")
  closestAny [[.cls "Box-row"], [.attrEq "role" "row"], [.tagIs "li", .cls "Box-row"],
    [.cls "js-issue-row"], [.attrHas "data-testid"]] e

/-- Loop body of the older `genericExtract`; this variant has no
try/catch around `new URL`, so `none` models a thrown TypeError. -/
def genericStep (loc : Loc) (seen : List String) (e : Elem) :
    Option (Option (String × Item)) :=
  match getAttr e "href" with
  | none => some none
  | some href =>
    if href == "" || seen.contains href then some none
    else if href == "#" || href == loc.pathname then some none
    else if jsStarts href "#" then some none
    else
      match resolveHref href loc.origin with
      | none => none
      | some u =>
        if u.origin != loc.origin then some none
        else if genericDenyPath u.pathname then some none
        else if assetPath u.pathname then some none
        else if jsTrim e.text == "" || jsLen (jsTrim e.text) < 2 ||
            jsLen (jsTrim e.text) > 300 then some none
        else if !isTitleLink e then some none
        else some (some (href,
          { title := jsTrim e.text, url := u.href, number := extractNumber href }))

/-- Loop of the older `genericExtract`. -/
def genericGo (loc : Loc) : List Elem → List String → List Item → Option (List Item)
  | [], _, acc => some acc
  | e :: rest, seen, acc =>
    match genericStep loc seen e with
    | none => none
    | some none => genericGo loc rest seen acc
    | some (some (href, it)) => genericGo loc rest (href :: seen) (acc ++ [it])

/-- The older `genericExtract(doc)`. -/
def genericExtract (doc : Doc) (loc : Loc) : Option (List Item) :=
  genericGo loc
    (List.filter (fun e => genericCandidates.any (fun s => selMatches s e)) doc)
    [] []

/-- The older `extractItems()`: no exhaustive retry loop; specific
extractor, then generic fallback, then package (same two return
records). -/
def extractItems (doc : Doc) (loc : Loc) : Option ExtractionResult :=
  match runSpecific doc loc (detectPage loc).type with
  | none => none
  | some items0 =>
    match (if items0.isEmpty then genericExtract doc loc else some items0) with
    | none => none
    | some items1 =>
      some (finishExtract loc (detectPage loc) items1)

end V1

-- ===== Specification predicates used by the theorems =====

/-- The correspondence between an emitted item and the raw href of the
link it came from: the number is parsed from the raw href and the url is
that href resolved against the page origin. -/
def ItemFromHref (loc : Loc) (it : Item) (h : String) : Prop :=
  it.number = extractNumber h ∧
    ∃ u, resolveHref h loc.origin = some u ∧ it.url = u.href

/-- What `\/(?:pull|issues)\/(\d+)` matching somewhere in `h` with
capture `ds` means, spelled out: a decomposition around the literal
segment, a non-empty all-digit capture, and maximality of the digit
run. -/
def NumShape (h : String) (ds : List Char) : Prop :=
  ds ≠ [] ∧ (∀ c ∈ ds, c.isDigit = true) ∧
  ∃ pre post,
    (h.toList = pre ++ pullSeg ++ ds ++ post ∨
     h.toList = pre ++ issuesSeg ++ ds ++ post) ∧
    ∀ c, post.head? = some c → c.isDigit = false

/-- The guarantees every item of a generic-mode result satisfies:
trimmed title length within [3, 300], and a source href that resolved
same-origin, was not the bare current path, not a fragment, and whose
resolved pathname passed the deny and asset filters. -/
def GoodGeneric (loc : Loc) (it : Item) : Prop :=
  3 ≤ jsLen it.title ∧ jsLen it.title ≤ 300 ∧
  ∃ h u, resolveHref h loc.origin = some u ∧ it.url = u.href ∧
    u.origin = loc.origin ∧ h ≠ loc.pathname ∧ h ≠ "#" ∧
    jsStarts h "#" = false ∧
    genericDenyPath u.pathname = false ∧ assetPath u.pathname = false

-- ===== Concrete fixtures for counterexamples and witnesses =====

/-- A pull-requests list location on the main origin. -/
def exLoc : Loc := ⟨"https://github.com", "/acme/widgets/pulls", "", ""⟩

/-- A markdown-title pull link with a root-relative href. -/
def exPull1 : Elem :=
  ⟨{ tag := "a", classes := ["markdown-title"],
     attrs := [("href", "/acme/widgets/pull/1")] }, "Fix bug", []⟩

/-- The same pull target written as an absolute href. -/
def exPull2 : Elem :=
  ⟨{ tag := "a", classes := ["markdown-title"],
     attrs := [("href", "https://github.com/acme/widgets/pull/1")] },
   "Fix bug again", []⟩

/-- A Box-row container node. -/
def exBoxRow : DomNode := { tag := "div", classes := ["Box-row"] }

/-- An h4 heading node. -/
def exH4 : DomNode := { tag := "h4" }

/-- A link whose href cannot be resolved (`new URL("https://", ...)`
throws), sitting inside `.Box-row h4`. -/
def exBad : Elem :=
  ⟨{ tag := "a", attrs := [("href", "https://")] }, "Broken thing",
   [exBoxRow, exH4]⟩

/-- A well-formed release-tag link. -/
def exGood : Elem :=
  ⟨{ tag := "a", classes := ["Link--primary"],
     attrs := [("href", "/acme/widgets/releases/tag/v1.0.0")] }, "v1.0.0", []⟩

/-- A link whose raw href contains `/pull/5` only in its query string. -/
def exStrange : Elem :=
  ⟨{ tag := "a", attrs := [("href", "/a?q=/pull/5")] }, "Strange link",
   [exBoxRow, exH4]⟩

/-- A user profile link carrying `data-hovercard-type="user"`. -/
def exUserLink : Elem :=
  ⟨{ tag := "a",
     attrs := [("href", "/torvalds"), ("data-hovercard-type", "user")] },
   "torvalds", []⟩

/-- A cross-origin link matched by the tags extractor. -/
def exCross : Elem :=
  ⟨{ tag := "a", classes := ["Link--primary"],
     attrs := [("href", "https://evil.com/x/tree/main")] }, "v1.0.0",
   [exBoxRow]⟩

/-- A milestone-list link (matched by `milestonesList`, not by
`issueOrPr`). -/
def exMile : Elem :=
  ⟨{ tag := "a", classes := ["Link--primary"],
     attrs := [("href", "/acme/widgets/milestone/3")] }, "Sprint 1", []⟩

-- ===== Spec-side reference collectors (amended C1) =====

/-- Reference collector following the amended dedup claim: every link is
judged for eligibility independently of the others (its step body is run
against an empty seen set), and emission keeps only the first occurrence
of each raw href — two links with the same raw href are the same Item
and only the first is emitted.  A link whose raw href has already been
emitted is skipped outright, even one whose href would fail to resolve. -/
def specCollectFirst (pat : Option (String → Bool)) (loc : Loc) :
    List Elem → List String → Option (List Item)
  | [], _ => some []
  | e :: rest, seen =>
    match collectStep pat loc [] e with
    | some none => specCollectFirst pat loc rest seen
    | none =>
      match getAttr e "href" with
      | none => specCollectFirst pat loc rest seen
      | some href =>
        if seen.contains href then specCollectFirst pat loc rest seen
        else none
    | some (some (href, it)) =>
      if seen.contains href then specCollectFirst pat loc rest seen
      else Option.map (fun tl => it :: tl) (specCollectFirst pat loc rest (href :: seen))

/-- Reference generic collector following the amended dedup claim: each
candidate is judged against an empty seen set; only the first occurrence
of each raw href is emitted. -/
def specGenericFirst (loc : Loc) : List Elem → List String → List Item
  | [], _ => []
  | e :: rest, seen =>
    match genericStep loc [] e with
    | none => specGenericFirst loc rest seen
    | some (href, it) =>
      if seen.contains href then specGenericFirst loc rest seen
      else it :: specGenericFirst loc rest (href :: seen)

-- ===== Shared lemmas =====

/-- First-match characterisation of the classifier loop. -/
theorem detectGo_eq_first (rules : List PageRule) (full : String) :
    (∃ pre r post, rules = pre ++ r :: post ∧ r.pattern full = true ∧
      (∀ q ∈ pre, q.pattern full = false) ∧
      detectGo full rules = ⟨r.type, r.label⟩) ∨
    ((∀ q ∈ rules, q.pattern full = false) ∧
      detectGo full rules = ⟨none, "Items"⟩) := by
  induction rules with
  | nil => exact Or.inr ⟨by simp, rfl⟩
  | cons r rest ih =>
    by_cases h : r.pattern full
    · exact Or.inl ⟨[], r, rest, rfl, h, by simp, by simp [detectGo, h]⟩
    · have hbool : r.pattern full = false := by
        exact Bool.not_eq_true _ ▸ eq_false_of_ne_true h
      rcases ih with ⟨pre, q, post, heq, hq, hpre, hres⟩ | ⟨hall, hres⟩
      · refine Or.inl ⟨r :: pre, q, post, ?_, hq, ?_, ?_⟩
        · rw [heq]; rfl
        · intro x hx
          rcases List.mem_cons.mp hx with hx | hx
          · exact hx ▸ hbool
          · exact hpre x hx
        · simpa [detectGo, hbool] using hres
      · refine Or.inr ⟨?_, by simpa [detectGo, hbool] using hres⟩
        intro x hx
        rcases List.mem_cons.mp hx with hx | hx
        · exact hx ▸ hbool
        · exact hall x hx

/-- An emitted collector step passed the seen-set guard and satisfies
the href correspondence. -/
theorem collectStep_emit (pat : Option (String → Bool)) (loc : Loc)
    (seen : List String) (e : Elem) (href : String) (it : Item)
    (h : collectStep pat loc seen e = some (some (href, it))) :
    seen.contains href = false ∧ ItemFromHref loc it href := by
  unfold collectStep collectStepCore at h
  split at h
  · exact absurd h (by simp)
  · rename_i h0 hA
    split at h
    · exact absurd h (by simp)
    · rename_i hg1
      split at h
      · exact absurd h (by simp)
      · split at h
        · exact absurd h (by simp)
        · split at h
          · exact absurd h (by simp)
          · rename_i u hr
            have h2 := Option.some.inj (Option.some.inj h)
            rw [Prod.mk.injEq] at h2
            obtain ⟨hh, hit⟩ := h2
            subst hh
            refine ⟨?_, ?_, u, hr, ?_⟩
            · have hg1' : ¬h0 = "" ∧ h0 ∉ seen := by simpa using hg1
              simpa using hg1'.2
            · rw [← hit]
            · rw [← hit]

/-- Every successful collector run extends the accumulator with items in
one-to-one, order-preserving correspondence with a duplicate-free list
of raw hrefs not yet in the seen set. -/
theorem collectGo_hrefs (pat : Option (String → Bool)) (loc : Loc) :
    ∀ (elems : List Elem) (seen : List String) (acc out : List Item),
      collectGo pat loc elems seen acc = some out →
      ∃ ext hs, out = acc ++ ext ∧ hs.Nodup ∧
        (∀ h ∈ hs, seen.contains h = false) ∧
        List.Forall₂ (ItemFromHref loc) ext hs := by
  intro elems
  induction elems with
  | nil =>
    intro seen acc out h
    simp only [collectGo, Option.some.injEq] at h
    exact ⟨[], [], by simp [← h], List.nodup_nil, by simp, List.Forall₂.nil⟩
  | cons e rest ih =>
    intro seen acc out h
    rw [collectGo] at h
    cases hstep : collectStep pat loc seen e with
    | none => rw [hstep] at h; cases h
    | some o =>
      rw [hstep] at h
      cases o with
      | none => exact ih seen acc out h
      | some pr =>
        obtain ⟨href, it⟩ := pr
        obtain ⟨ext, hs, hout, hnd, havoid, hfa⟩ := ih (href :: seen) (acc ++ [it]) out h
        obtain ⟨hseen, hitem⟩ := collectStep_emit pat loc seen e href it hstep
        refine ⟨it :: ext, href :: hs, ?_, ?_, ?_, List.Forall₂.cons hitem hfa⟩
        · rw [hout]; simp
        · refine List.nodup_cons.mpr ⟨?_, hnd⟩
          intro hmem
          have := havoid href hmem
          simp [List.contains_cons] at this
        · intro x hx
          rcases List.mem_cons.mp hx with hx | hx
          · exact hx ▸ hseen
          · have := havoid x hx
            simp only [List.contains_cons, Bool.or_eq_false_iff] at this
            exact this.2

/-- An emitted generic step satisfies every exclusion guarantee. -/
theorem genericStep_emit (loc : Loc) (seen : List String) (e : Elem)
    (href : String) (it : Item)
    (h : genericStep loc seen e = some (href, it)) : GoodGeneric loc it := by
  unfold genericStep genericStepCore at h
  split at h
  · exact absurd h (by simp)
  · rename_i h0 hA
    split at h
    · exact absurd h (by simp)
    · split at h
      · exact absurd h (by simp)
      · rename_i hg2
        split at h
        · exact absurd h (by simp)
        · rename_i hg3
          split at h
          · exact absurd h (by simp)
          · rename_i u hr
            split at h
            · exact absurd h (by simp)
            · rename_i hg4
              split at h
              · exact absurd h (by simp)
              · rename_i hg5
                split at h
                · exact absurd h (by simp)
                · rename_i hg6
                  split at h
                  · exact absurd h (by simp)
                  · rename_i hg7
                    split at h
                    · exact absurd h (by simp)
                    · have h2 := Option.some.inj h
                      rw [Prod.mk.injEq] at h2
                      obtain ⟨hh, hit⟩ := h2
                      subst hh
                      have hlen : ¬(jsTrim e.text == "" ||
                          decide (jsLen (jsTrim e.text) < 3) ||
                          decide (jsLen (jsTrim e.text) > 300)) = true := hg7
                      simp only [Bool.or_eq_true, not_or, decide_eq_true_eq] at hlen
                      obtain ⟨⟨ht0, ht1⟩, ht2⟩ := hlen
                      have hcur : ¬(h0 == "#" || h0 == loc.pathname) = true := hg2
                      simp only [Bool.or_eq_true, not_or, beq_iff_eq] at hcur
                      refine ⟨?_, ?_, h0, u, hr, ?_, ?_, ?_, ?_, ?_, ?_, ?_⟩
                      · rw [← hit]; show 3 ≤ jsLen (jsTrim e.text); omega
                      · rw [← hit]; show jsLen (jsTrim e.text) ≤ 300; omega
                      · rw [← hit]
                      · have : ¬(u.origin != loc.origin) = true := hg4
                        simpa using this
                      · exact hcur.2
                      · exact hcur.1
                      · simpa using hg3
                      · simpa using hg5
                      · simpa using hg6

/-- Membership in a generic loop run comes from the accumulator or from
an emission satisfying the guarantees. -/
theorem genericGo_mem (loc : Loc) :
    ∀ (elems : List Elem) (seen : List String) (acc : List Item) (it : Item),
      it ∈ genericGo loc elems seen acc → it ∈ acc ∨ GoodGeneric loc it := by
  intro elems
  induction elems with
  | nil => intro seen acc it h; exact Or.inl (by simpa [genericGo] using h)
  | cons e rest ih =>
    intro seen acc it h
    rw [genericGo] at h
    cases hstep : genericStep loc seen e with
    | none => rw [hstep] at h; exact ih seen acc it h
    | some pr =>
      obtain ⟨href, it0⟩ := pr
      rw [hstep] at h
      rcases ih (href :: seen) (acc ++ [it0]) it h with hm | hg
      · rcases List.mem_append.mp hm with hm | hm
        · exact Or.inl hm
        · have : it = it0 := by simpa using hm
          exact Or.inr (this ▸ genericStep_emit loc seen e href it0 hstep)
      · exact Or.inr hg

/-- An element whose href does not resolve contributes nothing to a
generic step (all paths through the body skip it). -/
theorem genericStep_none_of_unresolvable (loc : Loc) (seen : List String)
    (e : Elem)
    (hres : ∀ h, getAttr e "href" = some h → resolveHref h loc.origin = none) :
    genericStep loc seen e = none := by
  unfold genericStep genericStepCore
  split
  · rfl
  · rename_i h0 hA
    have := hres h0 hA
    split
    · rfl
    · split
      · rfl
      · split
        · rfl
        · split
          · rfl
          · rename_i u hr
            rw [this] at hr
            cases hr

/-- The head of a dropWhile residue fails the predicate. -/
theorem head?_dropWhile_false (p : Char → Bool) :
    ∀ (l : List Char) (c : Char), (l.dropWhile p).head? = some c → p c = false := by
  intro l
  induction l with
  | nil => intro c h; cases h
  | cons a t ih =>
    intro c h
    rw [List.dropWhile_cons] at h
    split at h
    · exact ih c h
    · rename_i hp
      have hac : a = c := by simpa using h
      subst hac
      simpa using hp

/-- takeWhile over a block of satisfying elements followed by a
non-satisfying head returns exactly the block. -/
theorem takeWhile_app_all (p : Char → Bool) :
    ∀ (ds post : List Char), (∀ c ∈ ds, p c = true) →
      (∀ c, post.head? = some c → p c = false) →
      (ds ++ post).takeWhile p = ds := by
  intro ds
  induction ds with
  | nil =>
    intro post hds hpost
    cases post with
    | nil => rfl
    | cons c t =>
      have := hpost c rfl
      simp [List.takeWhile_cons, this]
  | cons d ds ih =>
    intro post hds hpost
    have hd : p d = true := hds d (by simp)
    simp only [List.cons_append, List.takeWhile_cons, hd, if_true]
    rw [ih post (fun c hc => hds c (by simp [hc])) hpost]

/-- Boolean prefix test unpacked to a decomposition. -/
theorem isPrefixOf_exists {l p : List Char} (h : p.isPrefixOf l = true) :
    ∃ t, l = p ++ t := by
  obtain ⟨t, ht⟩ := List.isPrefixOf_iff_prefix.mp h
  exact ⟨t, ht.symm⟩

/-- The two alternatives of the number regex cannot shadow each other. -/
theorem pull_not_prefix_of_issues (t : List Char) :
    pullSeg.isPrefixOf (issuesSeg ++ t) = false := rfl

/-- A successful head match of the number regex decomposes the input. -/
theorem pullIssueAt_some_shape (l ds : List Char) (h : pullIssueAt l = some ds) :
    ds ≠ [] ∧ (∀ c ∈ ds, c.isDigit = true) ∧
    ∃ post, (l = pullSeg ++ ds ++ post ∨ l = issuesSeg ++ ds ++ post) ∧
      ∀ c, post.head? = some c → c.isDigit = false := by
  unfold pullIssueAt at h
  split at h
  · rename_i hpfx
    split at h
    · cases h
    · rename_i hne
      have hds := Option.some.inj h
      obtain ⟨t, ht⟩ := isPrefixOf_exists hpfx
      have hdrop : l.drop 6 = t := by
        rw [ht]; exact List.drop_left pullSeg t
      rw [hdrop] at hds hne
      refine ⟨?_, ?_, t.dropWhile Char.isDigit, Or.inl ?_, ?_⟩
      · rw [← hds]; simpa using hne
      · intro c hc
        rw [← hds] at hc
        exact List.mem_takeWhile_imp hc
      · rw [ht, ← hds]
        rw [List.append_assoc]
        rw [List.takeWhile_append_dropWhile]
      · exact head?_dropWhile_false Char.isDigit t
  · rename_i hpull
    split at h
    · rename_i hpfx
      split at h
      · cases h
      · rename_i hne
        have hds := Option.some.inj h
        obtain ⟨t, ht⟩ := isPrefixOf_exists hpfx
        have hdrop : l.drop 8 = t := by
          rw [ht]; exact List.drop_left issuesSeg t
        rw [hdrop] at hds hne
        refine ⟨?_, ?_, t.dropWhile Char.isDigit, Or.inr ?_, ?_⟩
        · rw [← hds]; simpa using hne
        · intro c hc
          rw [← hds] at hc
          exact List.mem_takeWhile_imp hc
        · rw [ht, ← hds]
          rw [List.append_assoc]
          rw [List.takeWhile_append_dropWhile]
        · exact head?_dropWhile_false Char.isDigit t
    · cases h

/-- Soundness of the leftmost scan: a hit decomposes the input. -/
theorem findPI_some_shape : ∀ (l ds : List Char), findPI l = some ds →
    ds ≠ [] ∧ (∀ c ∈ ds, c.isDigit = true) ∧
    ∃ pre post,
      (l = pre ++ pullSeg ++ ds ++ post ∨ l = pre ++ issuesSeg ++ ds ++ post) ∧
      ∀ c, post.head? = some c → c.isDigit = false := by
  intro l
  induction l with
  | nil => intro ds h; cases h
  | cons c t ih =>
    intro ds h
    rw [findPI] at h
    cases hp : pullIssueAt (c :: t) with
    | some ds0 =>
      rw [hp] at h
      have hds := Option.some.inj h
      subst hds
      obtain ⟨h1, h2, post, h3, h4⟩ := pullIssueAt_some_shape _ _ hp
      exact ⟨h1, h2, [], post, by simpa using h3, h4⟩
    | none =>
      rw [hp] at h
      obtain ⟨h1, h2, pre, post, h3, h4⟩ := ih ds h
      refine ⟨h1, h2, c :: pre, post, ?_, h4⟩
      rcases h3 with h3 | h3
      · exact Or.inl (by simp [h3])
      · exact Or.inr (by simp [h3])

/-- A head hit makes the scan succeed. -/
theorem findPI_isSome_of_head (l : List Char)
    (h : (pullIssueAt l).isSome = true) : (findPI l).isSome = true := by
  cases l with
  | nil =>
    have : pullIssueAt [] = none := rfl
    rw [this] at h
    cases h
  | cons c t =>
    rw [findPI]
    cases hp : pullIssueAt (c :: t) with
    | some ds => simp
    | none => rw [hp] at h; cases h

/-- Completeness of the leftmost scan: any decomposition makes it
succeed. -/
theorem findPI_isSome_of_shape : ∀ (pre seg ds post : List Char),
    (seg = pullSeg ∨ seg = issuesSeg) → ds ≠ [] →
    (∀ c ∈ ds, c.isDigit = true) →
    (∀ c, post.head? = some c → c.isDigit = false) →
    (findPI (pre ++ (seg ++ (ds ++ post)))).isSome = true := by
  intro pre
  induction pre with
  | nil =>
    intro seg ds post hseg hne hds hpost
    have hds' : ds.isEmpty = false := by
      cases ds with
      | nil => exact absurd rfl hne
      | cons a b => rfl
    simp only [List.nil_append]
    apply findPI_isSome_of_head
    rcases hseg with rfl | rfl
    · have hpfx : pullSeg.isPrefixOf (pullSeg ++ (ds ++ post)) = true :=
        List.isPrefixOf_iff_prefix.mpr (List.prefix_append _ _)
      unfold pullIssueAt
      rw [if_pos hpfx]
      have hdrop : (pullSeg ++ (ds ++ post)).drop 6 = ds ++ post :=
        List.drop_left pullSeg (ds ++ post)
      rw [hdrop, takeWhile_app_all Char.isDigit ds post hds hpost]
      simp [hds']
    · have hpull : pullSeg.isPrefixOf (issuesSeg ++ (ds ++ post)) = false :=
        pull_not_prefix_of_issues (ds ++ post)
      have hpfx : issuesSeg.isPrefixOf (issuesSeg ++ (ds ++ post)) = true :=
        List.isPrefixOf_iff_prefix.mpr (List.prefix_append _ _)
      unfold pullIssueAt
      rw [if_neg (by rw [hpull]; exact Bool.false_ne_true), if_pos hpfx]
      have hdrop : (issuesSeg ++ (ds ++ post)).drop 8 = ds ++ post :=
        List.drop_left issuesSeg (ds ++ post)
      rw [hdrop, takeWhile_app_all Char.isDigit ds post hds hpost]
      simp [hds']
  | cons c pre ih =>
    intro seg ds post hseg hne hds hpost
    rw [List.cons_append, findPI]
    cases hp : pullIssueAt (c :: (pre ++ (seg ++ (ds ++ post)))) with
    | some ds0 => simp
    | none => exact ih seg ds post hseg hne hds hpost

/-- Members on the left of a Forall₂ have right partners. -/
theorem forall2_mem_left {α β : Type} {R : α → β → Prop} {l₁ : List α}
    {l₂ : List β} (h : List.Forall₂ R l₁ l₂) :
    ∀ a ∈ l₁, ∃ b, b ∈ l₂ ∧ R a b := by
  induction h with
  | nil => intro a ha; cases ha
  | cons hr ht ih =>
    intro a ha
    rcases List.mem_cons.mp ha with rfl | ha
    · exact ⟨_, by simp, hr⟩
    · obtain ⟨b, hb, hrb⟩ := ih a ha
      exact ⟨b, by simp [hb], hrb⟩

/-- The empty seen set contains nothing. -/
theorem contains_nil_str (href : String) :
    List.contains ([] : List String) href = false := rfl

/-- Step reduction when the element has no href. -/
theorem collectStep_attr_none (pat : Option (String → Bool)) (loc : Loc)
    (seen : List String) (e : Elem) (hA : getAttr e "href" = none) :
    collectStep pat loc seen e = some none := by
  unfold collectStep
  rw [hA]

/-- Step reduction when the element has an href. -/
theorem collectStep_attr_some (pat : Option (String → Bool)) (loc : Loc)
    (seen : List String) (e : Elem) (href : String)
    (hA : getAttr e "href" = some href) :
    collectStep pat loc seen e =
      if href == "" || seen.contains href then some none
      else collectStepCore pat loc href e := by
  unfold collectStep
  rw [hA]

/-- An emission of the seen-free collector body carries the scrutinized
href. -/
theorem collectStepCore_some (pat : Option (String → Bool)) (loc : Loc)
    (href : String) (e : Elem) (h' : String) (it : Item)
    (h : collectStepCore pat loc href e = some (some (h', it))) : h' = href := by
  unfold collectStepCore at h
  split at h
  · exact absurd h (by simp)
  · split at h
    · exact absurd h (by simp)
    · split at h
      · exact absurd h (by simp)
      · exact (congrArg Prod.fst (Option.some.inj (Option.some.inj h))).symm

/-- A skip of the collector body is independent of the seen set. -/
theorem collectStep_skip_mono (pat : Option (String → Bool)) (loc : Loc)
    (seen : List String) (e : Elem)
    (h : collectStep pat loc [] e = some none) :
    collectStep pat loc seen e = some none := by
  cases hA : getAttr e "href" with
  | none => exact collectStep_attr_none pat loc seen e hA
  | some href =>
    rw [collectStep_attr_some pat loc [] e href hA] at h
    rw [collectStep_attr_some pat loc seen e href hA]
    by_cases h0 : (href == "") = true
    · rw [if_pos (by simp [h0])]
    · rw [if_neg (by simp [h0, contains_nil_str])] at h
      by_cases hc : seen.contains href = true
      · rw [if_pos (by rw [hc, Bool.or_true])]
      · have hc' : seen.contains href = false := by simpa using hc
        rw [if_neg (by rw [hc']; simpa using h0)]
        exact h

/-- A throw of the seen-free collector body entails an href; under a
seen set already containing it the element is skipped before
resolution, otherwise the throw persists. -/
theorem collectStep_throw_mono (pat : Option (String → Bool)) (loc : Loc)
    (seen : List String) (e : Elem)
    (h : collectStep pat loc [] e = none) :
    ∃ href, getAttr e "href" = some href ∧
      collectStep pat loc seen e =
        (if seen.contains href then some none else none) := by
  cases hA : getAttr e "href" with
  | none => rw [collectStep_attr_none pat loc [] e hA] at h; cases h
  | some href =>
    rw [collectStep_attr_some pat loc [] e href hA] at h
    by_cases h0 : (href == "") = true
    · rw [if_pos (by simp [h0])] at h; cases h
    · rw [if_neg (by simp [h0, contains_nil_str])] at h
      refine ⟨href, rfl, ?_⟩
      rw [collectStep_attr_some pat loc seen e href hA]
      by_cases hc : seen.contains href = true
      · rw [if_pos (by rw [hc, Bool.or_true]), if_pos hc]
      · have hc' : seen.contains href = false := by simpa using hc
        rw [if_neg (by rw [hc']; simpa using h0), if_neg hc]
        exact h

/-- An emission of the seen-free collector body is emitted under any
seen set not containing its href, and skipped otherwise. -/
theorem collectStep_emit_mono (pat : Option (String → Bool)) (loc : Loc)
    (seen : List String) (e : Elem) (href : String) (it : Item)
    (h : collectStep pat loc [] e = some (some (href, it))) :
    getAttr e "href" = some href ∧
    collectStep pat loc seen e =
      (if seen.contains href then some none else some (some (href, it))) := by
  cases hA : getAttr e "href" with
  | none => rw [collectStep_attr_none pat loc [] e hA] at h; cases h
  | some href0 =>
    rw [collectStep_attr_some pat loc [] e href0 hA] at h
    by_cases h0 : (href0 == "") = true
    · rw [if_pos (by simp [h0])] at h; cases h
    · rw [if_neg (by simp [h0, contains_nil_str])] at h
      have heq : href = href0 := collectStepCore_some pat loc href0 e href it h
      subst heq
      refine ⟨rfl, ?_⟩
      rw [collectStep_attr_some pat loc seen e href hA]
      by_cases hc : seen.contains href = true
      · rw [if_pos (by rw [hc, Bool.or_true]), if_pos hc]
      · have hc' : seen.contains href = false := by simpa using hc
        rw [if_neg (by rw [hc']; simpa using h0), if_neg hc]
        exact h

/-- Generic step reduction when the element has no href. -/
theorem genericStep_attr_none (loc : Loc) (seen : List String) (e : Elem)
    (hA : getAttr e "href" = none) : genericStep loc seen e = none := by
  unfold genericStep
  rw [hA]

/-- Generic step reduction when the element has an href. -/
theorem genericStep_attr_some (loc : Loc) (seen : List String) (e : Elem)
    (href : String) (hA : getAttr e "href" = some href) :
    genericStep loc seen e =
      if href == "" || seen.contains href then none
      else genericStepCore loc href e := by
  unfold genericStep
  rw [hA]

/-- An emission of the seen-free generic body carries the scrutinized
href. -/
theorem genericStepCore_some (loc : Loc) (href : String) (e : Elem)
    (h' : String) (it : Item)
    (h : genericStepCore loc href e = some (h', it)) : h' = href := by
  unfold genericStepCore at h
  split at h
  · exact absurd h (by simp)
  · split at h
    · exact absurd h (by simp)
    · split at h
      · exact absurd h (by simp)
      · split at h
        · exact absurd h (by simp)
        · split at h
          · exact absurd h (by simp)
          · split at h
            · exact absurd h (by simp)
            · split at h
              · exact absurd h (by simp)
              · split at h
                · exact absurd h (by simp)
                · exact (congrArg Prod.fst (Option.some.inj h)).symm

/-- A skip of the generic body is independent of the seen set. -/
theorem genericStep_none_mono (loc : Loc) (seen : List String) (e : Elem)
    (h : genericStep loc [] e = none) : genericStep loc seen e = none := by
  cases hA : getAttr e "href" with
  | none => exact genericStep_attr_none loc seen e hA
  | some href =>
    rw [genericStep_attr_some loc [] e href hA] at h
    rw [genericStep_attr_some loc seen e href hA]
    by_cases h0 : (href == "") = true
    · rw [if_pos (by simp [h0])]
    · rw [if_neg (by simp [h0, contains_nil_str])] at h
      by_cases hc : seen.contains href = true
      · rw [if_pos (by rw [hc, Bool.or_true])]
      · have hc' : seen.contains href = false := by simpa using hc
        rw [if_neg (by rw [hc']; simpa using h0)]
        exact h

/-- An emission of the seen-free generic body is emitted under any seen
set not containing its href, and skipped otherwise. -/
theorem genericStep_emit_mono (loc : Loc) (seen : List String) (e : Elem)
    (href : String) (it : Item)
    (h : genericStep loc [] e = some (href, it)) :
    genericStep loc seen e =
      (if seen.contains href then none else some (href, it)) := by
  cases hA : getAttr e "href" with
  | none => rw [genericStep_attr_none loc [] e hA] at h; cases h
  | some href0 =>
    rw [genericStep_attr_some loc [] e href0 hA] at h
    by_cases h0 : (href0 == "") = true
    · rw [if_pos (by simp [h0])] at h; cases h
    · rw [if_neg (by simp [h0, contains_nil_str])] at h
      have heq : href = href0 := genericStepCore_some loc href0 e href it h
      subst heq
      rw [genericStep_attr_some loc seen e href hA]
      by_cases hc : seen.contains href = true
      · rw [if_pos (by rw [hc, Bool.or_true]), if_pos hc]
      · have hc' : seen.contains href = false := by simpa using hc
        rw [if_neg (by rw [hc']; simpa using h0), if_neg hc]
        exact h

/-- The collector loop equals the spec-side first-occurrence collector
(modulo the accumulator prefix). -/
theorem collectGo_eq_spec (pat : Option (String → Bool)) (loc : Loc) :
    ∀ (elems : List Elem) (seen : List String) (acc : List Item),
      collectGo pat loc elems seen acc =
        Option.map (fun tl => acc ++ tl) (specCollectFirst pat loc elems seen) := by
  intro elems
  induction elems with
  | nil => intro seen acc; simp [collectGo, specCollectFirst]
  | cons e rest ih =>
    intro seen acc
    rw [collectGo, specCollectFirst]
    cases h : collectStep pat loc [] e with
    | none =>
      obtain ⟨href, hA, hstep⟩ := collectStep_throw_mono pat loc seen e h
      rw [hstep, hA]
      by_cases hc : seen.contains href = true
      · rw [if_pos hc]
        show collectGo pat loc rest seen acc =
          Option.map (fun tl => acc ++ tl)
            (if seen.contains href = true then specCollectFirst pat loc rest seen
             else none)
        rw [if_pos hc]
        exact ih seen acc
      · rw [if_neg hc]
        show (none : Option (List Item)) =
          Option.map (fun tl => acc ++ tl)
            (if seen.contains href = true then specCollectFirst pat loc rest seen
             else none)
        rw [if_neg hc]
        rfl
    | some o =>
      cases o with
      | none =>
        rw [collectStep_skip_mono pat loc seen e h]
        show collectGo pat loc rest seen acc =
          Option.map (fun tl => acc ++ tl) (specCollectFirst pat loc rest seen)
        exact ih seen acc
      | some pr =>
        obtain ⟨href, it⟩ := pr
        obtain ⟨hA, hstep⟩ := collectStep_emit_mono pat loc seen e href it h
        rw [hstep]
        by_cases hc : seen.contains href = true
        · rw [if_pos hc]
          show collectGo pat loc rest seen acc =
            Option.map (fun tl => acc ++ tl)
              (if seen.contains href = true then specCollectFirst pat loc rest seen
               else Option.map (fun tl => it :: tl)
                 (specCollectFirst pat loc rest (href :: seen)))
          rw [if_pos hc]
          exact ih seen acc
        · rw [if_neg hc]
          show collectGo pat loc rest (href :: seen) (acc ++ [it]) =
            Option.map (fun tl => acc ++ tl)
              (if seen.contains href = true then specCollectFirst pat loc rest seen
               else Option.map (fun tl => it :: tl)
                 (specCollectFirst pat loc rest (href :: seen)))
          rw [if_neg hc, ih (href :: seen) (acc ++ [it])]
          cases hs : specCollectFirst pat loc rest (href :: seen) with
          | none => rfl
          | some tl => simp [List.append_assoc]

/-- The generic loop equals the spec-side first-occurrence collector
(modulo the accumulator prefix). -/
theorem genericGo_eq_spec (loc : Loc) :
    ∀ (elems : List Elem) (seen : List String) (acc : List Item),
      genericGo loc elems seen acc = acc ++ specGenericFirst loc elems seen := by
  intro elems
  induction elems with
  | nil => intro seen acc; simp [genericGo, specGenericFirst]
  | cons e rest ih =>
    intro seen acc
    rw [genericGo, specGenericFirst]
    cases h : genericStep loc [] e with
    | none =>
      rw [genericStep_none_mono loc seen e h]
      show genericGo loc rest seen acc = acc ++ specGenericFirst loc rest seen
      exact ih seen acc
    | some pr =>
      obtain ⟨href, it⟩ := pr
      rw [genericStep_emit_mono loc seen e href it h]
      by_cases hc : seen.contains href = true
      · rw [if_pos hc]
        show genericGo loc rest seen acc =
          acc ++ (if seen.contains href = true then specGenericFirst loc rest seen
            else it :: specGenericFirst loc rest (href :: seen))
        rw [if_pos hc]
        exact ih seen acc
      · rw [if_neg hc]
        show genericGo loc rest (href :: seen) (acc ++ [it]) =
          acc ++ (if seen.contains href = true then specGenericFirst loc rest seen
            else it :: specGenericFirst loc rest (href :: seen))
        rw [if_neg hc, ih (href :: seen) (acc ++ [it])]
        simp [List.append_assoc]

/-- An emitted generic step satisfies the raw href correspondence. -/
theorem genericStep_from_href (loc : Loc) (seen : List String) (e : Elem)
    (href : String) (it : Item)
    (h : genericStep loc seen e = some (href, it)) : ItemFromHref loc it href := by
  unfold genericStep genericStepCore at h
  split at h
  · exact absurd h (by simp)
  · split at h
    · exact absurd h (by simp)
    · split at h
      · exact absurd h (by simp)
      · split at h
        · exact absurd h (by simp)
        · split at h
          · exact absurd h (by simp)
          · rename_i u hr
            split at h
            · exact absurd h (by simp)
            · split at h
              · exact absurd h (by simp)
              · split at h
                · exact absurd h (by simp)
                · split at h
                  · exact absurd h (by simp)
                  · split at h
                    · exact absurd h (by simp)
                    · have h2 := Option.some.inj h
                      rw [Prod.mk.injEq] at h2
                      obtain ⟨hh, hit⟩ := h2
                      subst hh
                      refine ⟨?_, u, hr, ?_⟩
                      · rw [← hit]
                      · rw [← hit]

/-- The spec-side generic collector emits items in one-to-one,
order-preserving correspondence with a duplicate-free raw href list. -/
theorem specGenericFirst_hrefs (loc : Loc) :
    ∀ (elems : List Elem) (seen : List String),
      ∃ hs : List String, hs.Nodup ∧ (∀ h ∈ hs, seen.contains h = false) ∧
        List.Forall₂ (ItemFromHref loc) (specGenericFirst loc elems seen) hs := by
  intro elems
  induction elems with
  | nil =>
    intro seen
    exact ⟨[], List.nodup_nil, by simp, List.Forall₂.nil⟩
  | cons e rest ih =>
    intro seen
    rw [specGenericFirst]
    cases h : genericStep loc [] e with
    | none => exact ih seen
    | some pr =>
      obtain ⟨href, it⟩ := pr
      by_cases hc : seen.contains href = true
      · show ∃ hs : List String, hs.Nodup ∧ (∀ h ∈ hs, seen.contains h = false) ∧
          List.Forall₂ (ItemFromHref loc)
            (if seen.contains href = true then specGenericFirst loc rest seen
             else it :: specGenericFirst loc rest (href :: seen)) hs
        rw [if_pos hc]
        exact ih seen
      · show ∃ hs : List String, hs.Nodup ∧ (∀ h ∈ hs, seen.contains h = false) ∧
          List.Forall₂ (ItemFromHref loc)
            (if seen.contains href = true then specGenericFirst loc rest seen
             else it :: specGenericFirst loc rest (href :: seen)) hs
        rw [if_neg hc]
        obtain ⟨hs, hnd, havoid, hfa⟩ := ih (href :: seen)
        refine ⟨href :: hs, ?_, ?_, ?_⟩
        · refine List.nodup_cons.mpr ⟨?_, hnd⟩
          intro hmem
          have := havoid href hmem
          simp [List.contains_cons] at this
        · intro x hx
          rcases List.mem_cons.mp hx with rfl | hx
          · simpa using hc
          · have := havoid x hx
            simp only [List.contains_cons, Bool.or_eq_false_iff] at this
            exact this.2
        · exact List.Forall₂.cons (genericStep_from_href loc [] e href it h) hfa

-- ===== Claim theorems =====

/-- C4: for every path and query string, the page classifier
(`detectPage`) returns the `(extractorKind, label)` pair of the first
rule in the ordered `PAGE_RULES` table whose pattern matches the
concatenation of path and query, and returns `(null, "Items")` when no
rule matches. -/
theorem c4_first_match_classifier (loc : Loc) :
    (∃ pre r post, PAGE_RULES = pre ++ r :: post ∧
      r.pattern (loc.pathname ++ loc.search) = true ∧
      (∀ q ∈ pre, q.pattern (loc.pathname ++ loc.search) = false) ∧
      detectPage loc = ⟨r.type, r.label⟩) ∨
    ((∀ q ∈ PAGE_RULES, q.pattern (loc.pathname ++ loc.search) = false) ∧
      detectPage loc = ⟨none, "Items"⟩) :=
  detectGo_eq_first PAGE_RULES (loc.pathname ++ loc.search)

/-- C5: the classifier sends `/acme/widgets/milestones` (empty query) to
`(milestonesList, "Milestones")` and `/acme/widgets/milestone/7` to
`(milestone, "Milestone")`; the single-milestone page is not captured by
the milestones-list rule. -/
theorem c5_milestone_scenarios :
    detectPage ⟨"https://github.com", "/acme/widgets/milestones", "", ""⟩ =
      ⟨some "milestonesList", "Milestones"⟩ ∧
    detectPage ⟨"https://github.com", "/acme/widgets/milestone/7", "", ""⟩ =
      ⟨some "milestone", "Milestone"⟩ := by
  constructor
  · decide
  · decide

/-- C9: extraction is deterministic — two calls of `extractItems` on the
same document tree and location return identical results (same success
flag, page kind, label, repo context, and the same items in the same
order). -/
theorem c9_determinism (doc : Doc) (loc : Loc) (r₁ r₂ : Option ExtractionResult)
    (h₁ : extractItems doc loc = r₁) (h₂ : extractItems doc loc = r₂) :
    r₁ = r₂ := by
  rw [← h₁, ← h₂]

/-- Witness for C9 at a concrete document and location. -/
theorem c9_witness :
    extractItems [exMile] exLoc =
      some { success := true, pageType := some "issueOrPr",
             pageLabel := some "Pull Requests", repo := ⟨"acme", "widgets"⟩,
             items := [⟨"Sprint 1",
               "https://github.com/acme/widgets/milestone/3", none⟩],
             error := none,
             url := some "https://github.com/acme/widgets/pulls" } ∧
    extractItems [exMile] exLoc = extractItems [exMile] exLoc :=
  ⟨by decide, c9_determinism [exMile] exLoc _ _ rfl rfl⟩

/-- C1 fails as stated: `extractLinks` deduplicates on the raw href
attribute, not on the resolved absolute URL, so a root-relative and an
absolute spelling of the same target yield two items with the same
resolved url. -/
theorem c1_counterexample_duplicate_resolved_url :
    (extractLinks [exPull1, exPull2] issueOrPrSelectors (some patPullIssues)
        exLoc).map (List.map Item.url) =
      some ["https://github.com/acme/widgets/pull/1",
            "https://github.com/acme/widgets/pull/1"] := by decide

/-- C1 (amended): dedup is keyed on the raw href attribute and only the
first occurrence of each raw href is emitted — both `extractLinks` and
`genericExtract` equal a reference collector that judges every link
independently of the seen set and filters the eligible links to the
first occurrence of each raw href; consequently the items of any result
correspond one-to-one, in order, to a duplicate-free list of raw hrefs,
each item's url and number being derived from its raw href.  Items from
different raw hrefs may still share a resolved url. -/
theorem c1_amended_dedup_by_raw_href :
    (∀ (doc : Doc) (selectors : List Sel) (pat : Option (String → Bool))
        (loc : Loc),
      extractLinks doc selectors pat loc =
        specCollectFirst pat loc ((selectors.map (querySelAll doc)).flatten) []) ∧
    (∀ (doc : Doc) (loc : Loc),
      genericExtract doc loc =
        specGenericFirst loc
          (List.filter (fun e => genericCandidates.any (fun s => selMatches s e))
            doc) []) ∧
    (∀ (doc : Doc) (selectors : List Sel) (pat : Option (String → Bool))
        (loc : Loc) (out : List Item),
      extractLinks doc selectors pat loc = some out →
      ∃ hs : List String, hs.Nodup ∧ List.Forall₂ (ItemFromHref loc) out hs) ∧
    (∀ (doc : Doc) (loc : Loc),
      ∃ hs : List String, hs.Nodup ∧
        List.Forall₂ (ItemFromHref loc) (genericExtract doc loc) hs) := by
  refine ⟨?_, ?_, ?_, ?_⟩
  · intro doc selectors pat loc
    unfold extractLinks
    rw [collectGo_eq_spec]
    cases hs : specCollectFirst pat loc
        ((selectors.map (querySelAll doc)).flatten) [] with
    | none => rfl
    | some tl => simp
  · intro doc loc
    unfold genericExtract
    rw [genericGo_eq_spec]
    simp
  · intro doc selectors pat loc out h
    obtain ⟨ext, hs, hout, hnd, _, hfa⟩ := collectGo_hrefs pat loc _ [] [] out h
    exact ⟨hs, hnd, by simpa [hout] using hfa⟩
  · intro doc loc
    obtain ⟨hs, hnd, _, hfa⟩ := specGenericFirst_hrefs loc
      (List.filter (fun e => genericCandidates.any (fun s => selMatches s e)) doc)
      []
    refine ⟨hs, hnd, ?_⟩
    unfold genericExtract
    rw [genericGo_eq_spec]
    simpa using hfa

/-- Witness for C1 (amended): the equalities instantiated at the
concrete duplicate-url and profile-link documents, and the href
correspondence at the concrete duplicate-url run. -/
theorem c1_witness :
    (extractLinks [exPull1, exPull2] issueOrPrSelectors (some patPullIssues)
        exLoc =
      specCollectFirst (some patPullIssues) exLoc
        ((issueOrPrSelectors.map (querySelAll [exPull1, exPull2])).flatten) []) ∧
    (genericExtract [exUserLink] exLoc =
      specGenericFirst exLoc
        (List.filter (fun e => genericCandidates.any (fun s => selMatches s e))
          [exUserLink]) []) ∧
    (∃ hs : List String, hs.Nodup ∧
      List.Forall₂ (ItemFromHref exLoc)
        [⟨"Fix bug", "https://github.com/acme/widgets/pull/1", some "#1"⟩,
         ⟨"Fix bug again", "https://github.com/acme/widgets/pull/1", some "#1"⟩]
        hs) :=
  ⟨c1_amended_dedup_by_raw_href.1 [exPull1, exPull2] issueOrPrSelectors
     (some patPullIssues) exLoc,
   c1_amended_dedup_by_raw_href.2.1 [exUserLink] exLoc,
   c1_amended_dedup_by_raw_href.2.2.1 [exPull1, exPull2] issueOrPrSelectors
     (some patPullIssues) exLoc _ (by decide)⟩

/-- C2 fails as stated for `extractLinks`: an element whose href cannot
be resolved (here `"https://"`, on which the URL constructor throws)
aborts the whole pass — the model returns `none` — even though a later
element alone would have produced an item. -/
theorem c2_counterexample_abort :
    extractLinks [exBad, exGood] tagsSelectors none exLoc = none ∧
    extractLinks [exGood] tagsSelectors none exLoc =
      some [⟨"v1.0.0", "https://github.com/acme/widgets/releases/tag/v1.0.0",
        none⟩] := by
  constructor
  · decide
  · decide

/-- C2 (amended): only `genericExtract` handles a malformed link target
locally — an element whose href fails URL resolution is skipped and the
rest of the generic pass is unaffected; `extractLinks` has no such
guard, and a malformed href that passes its earlier checks aborts the
whole pass. -/
theorem c2_amended_malformed_links :
    (∀ (e : Elem) (doc : Doc) (loc : Loc),
      (∀ h, getAttr e "href" = some h → resolveHref h loc.origin = none) →
      genericExtract (e :: doc) loc = genericExtract doc loc) ∧
    extractLinks [exBad, exGood] tagsSelectors none exLoc = none := by
  constructor
  · intro e doc loc hres
    unfold genericExtract
    rw [List.filter_cons]
    split
    · rw [genericGo, genericStep_none_of_unresolvable loc [] e hres]
    · rfl
  · decide

/-- Witness for C2 (amended): dropping the malformed element leaves the
generic result unchanged. -/
theorem c2_witness :
    genericExtract (exBad :: [exUserLink]) exLoc =
      genericExtract [exUserLink] exLoc :=
  c2_amended_malformed_links.1 exBad [exUserLink] exLoc (by
    intro h hh
    have hb : getAttr exBad "href" = some "https://" := by decide
    rw [hb] at hh
    cases hh
    decide)

/-- Packaging invariants: items are empty iff failure, an error is
carried iff failure, and the empty case is the literal failure record. -/
theorem finishExtract_inv (loc : Loc) (page : Page) (items2 : List Item) :
    ((finishExtract loc page items2).items = [] ↔
      (finishExtract loc page items2).success = false) ∧
    ((finishExtract loc page items2).error.isSome = true ↔
      (finishExtract loc page items2).success = false) ∧
    ((finishExtract loc page items2).items = [] →
      finishExtract loc page items2 =
        { success := false, pageType := none, pageLabel := none,
          repo := getContextInfo loc, items := [],
          error := some "No extractable items found on this page.",
          url := none }) := by
  cases he : items2.isEmpty with
  | true =>
    unfold finishExtract
    rw [if_pos he]
    exact ⟨by simp, by simp, fun _ => rfl⟩
  | false =>
    have h2 : items2 ≠ [] := by
      intro hh
      subst hh
      simp at he
    unfold finishExtract
    rw [if_neg (by simp [he])]
    refine ⟨by simp [h2], by simp, ?_⟩
    intro hx
    exact absurd hx h2

/-- C3: for every document and location on which `extractItems` returns,
the item sequence is empty iff `success` is false, an `error` string is
present iff `success` is false, and when no strategy yields any item the
record is exactly the failure record together with the repo context. -/
theorem c3_empty_iff_failure (doc : Doc) (loc : Loc) (r : ExtractionResult)
    (h : extractItems doc loc = some r) :
    (r.items = [] ↔ r.success = false) ∧
    (r.error.isSome = true ↔ r.success = false) ∧
    (r.items = [] →
      r = { success := false, pageType := none, pageLabel := none,
            repo := getContextInfo loc, items := [],
            error := some "No extractable items found on this page.",
            url := none }) := by
  unfold extractItems at h
  split at h
  · cases h
  · split at h
    · cases h
    · have hr := Option.some.inj h
      rw [← hr]
      exact finishExtract_inv loc (detectPage loc) _

/-- Witness for C3 at a concrete empty document. -/
theorem c3_witness :
    (([] : List Item) = [] ↔ false = false) ∧
    ((some "No extractable items found on this page." : Option String).isSome
        = true ↔ false = false) ∧
    (([] : List Item) = [] →
      ({ success := false, pageType := none, pageLabel := none,
         repo := ⟨"acme", "widgets"⟩, items := [],
         error := some "No extractable items found on this page.",
         url := none } : ExtractionResult) =
      { success := false, pageType := none, pageLabel := none,
        repo := getContextInfo exLoc, items := [],
        error := some "No extractable items found on this page.",
        url := none }) :=
  c3_empty_iff_failure [] exLoc
    { success := false, pageType := none, pageLabel := none,
      repo := ⟨"acme", "widgets"⟩, items := [],
      error := some "No extractable items found on this page.", url := none }
    (by decide)

/-- A non-default classifier answer is one of the table entries. -/
theorem detectGo_type_mem (full : String) :
    ∀ (rules : List PageRule) (k : String),
      (detectGo full rules).type = some k →
      some k ∈ rules.map PageRule.type := by
  intro rules
  induction rules with
  | nil => intro k h; cases h
  | cons r rest ih =>
    intro k h
    rw [detectGo] at h
    split at h
    · simp only [List.map_cons, List.mem_cons]
      exact Or.inl h.symm
    · simp only [List.map_cons, List.mem_cons]
      exact Or.inr (ih k h)

/-- No rule of the table carries an empty extractor kind string. -/
theorem pageRules_type_nonempty :
    ∀ x ∈ PAGE_RULES.map PageRule.type, x ≠ some "" := by decide

/-- C10: whenever `extractItems` succeeds, the reported `pageLabel` is
the label produced by classification and `pageType` is the classified
kind (or `"generic"` when classification was null) — in particular also
when the classified kind's own extractor returned zero items and the
items came from the all-extractors retry or the generic fallback; the
extractor that actually produced the items is never reflected. -/
theorem c10_classification_labels_result (doc : Doc) (loc : Loc)
    (r : ExtractionResult) (h : extractItems doc loc = some r)
    (hs : r.success = true)
    (_hz : ∀ k, (detectPage loc).type = some k →
      runSpecific doc loc (some k) = some []) :
    r.pageLabel = some (detectPage loc).label ∧
    ((detectPage loc).type = none → r.pageType = some "generic") ∧
    (∀ k, (detectPage loc).type = some k → r.pageType = some k) := by
  unfold extractItems at h
  split at h
  · cases h
  · split at h
    · cases h
    · rename_i items1 hstage
      have hr := Option.some.inj h
      rw [← hr] at hs
      rw [← hr]
      unfold finishExtract at hs ⊢
      by_cases hE : (if items1.isEmpty = true then genericExtract doc loc
          else items1).isEmpty = true
      · rw [if_pos hE] at hs
        cases hs
      · rw [if_neg hE]
        refine ⟨rfl, ?_, ?_⟩
        · intro hnone
          simp [jsOrString, hnone]
        · intro k hk
          have hmem := detectGo_type_mem (loc.pathname ++ loc.search)
            PAGE_RULES k hk
          have hne := pageRules_type_nonempty _ hmem
          have hkne : (k == "") = false := by
            simp only [beq_eq_false_iff_ne, ne_eq]
            intro hkk
            exact hne (by rw [hkk])
          simp [jsOrString, hk, hkne]

/-- Witness for C10: on a pulls page whose issueOrPr extractor finds
nothing, the items come from the milestonesList retry, yet the label and
type still reflect the classification. -/
theorem c10_witness :
    (({ success := true, pageType := some "issueOrPr",
        pageLabel := some "Pull Requests", repo := ⟨"acme", "widgets"⟩,
        items := [⟨"Sprint 1",
          "https://github.com/acme/widgets/milestone/3", none⟩],
        error := none,
        url := some "https://github.com/acme/widgets/pulls" } :
          ExtractionResult).pageLabel = some (detectPage exLoc).label) ∧
    ((detectPage exLoc).type = none →
      ({ success := true, pageType := some "issueOrPr",
         pageLabel := some "Pull Requests", repo := ⟨"acme", "widgets"⟩,
         items := [⟨"Sprint 1",
           "https://github.com/acme/widgets/milestone/3", none⟩],
         error := none,
         url := some "https://github.com/acme/widgets/pulls" } :
           ExtractionResult).pageType = some "generic") ∧
    (∀ k, (detectPage exLoc).type = some k →
      ({ success := true, pageType := some "issueOrPr",
         pageLabel := some "Pull Requests", repo := ⟨"acme", "widgets"⟩,
         items := [⟨"Sprint 1",
           "https://github.com/acme/widgets/milestone/3", none⟩],
         error := none,
         url := some "https://github.com/acme/widgets/pulls" } :
           ExtractionResult).pageType = some k) :=
  c10_classification_labels_result [exMile] exLoc _ (by decide) (by decide)
    (by
      intro k hk
      have hdet : (detectPage exLoc).type = some "issueOrPr" := by decide
      rw [hdet] at hk
      cases hk
      decide)

/-- C6 fails as stated: the number is parsed from the raw href, not from
the resolved path — a tags-page link with raw href `/a?q=/pull/5`
resolves to pathname `/a` (no pull or issue segment), yet the emitted
item carries `number = "#5"`. -/
theorem c6_counterexample_number_from_raw_href :
    extractLinks [exStrange] tagsSelectors none exLoc =
      some [⟨"Strange link", "https://github.com/a?q=/pull/5", some "#5"⟩] ∧
    resolveHref "/a?q=/pull/5" exLoc.origin =
      some ⟨"https://github.com", "/a", "https://github.com/a?q=/pull/5"⟩ ∧
    findPI "/a".toList = none := by
  refine ⟨by decide, by decide, by decide⟩

/-- C6 (amended): every collected item's number is computed from the raw
href of its source link — `extractNumber` returns `some` exactly when
the raw href contains a `/pull/` or `/issues/` segment immediately
followed by a digit run, and any returned value is `"#"` followed by
such a maximal digit run. -/
theorem c6_amended_number_parsing :
    (∀ (doc : Doc) (selectors : List Sel) (pat : Option (String → Bool))
        (loc : Loc) (out : List Item),
      extractLinks doc selectors pat loc = some out →
      ∀ it ∈ out, ∃ h, ItemFromHref loc it h) ∧
    (∀ h : String, (extractNumber h).isSome = true ↔ ∃ ds, NumShape h ds) ∧
    (∀ (h n : String), extractNumber h = some n →
      ∃ ds, NumShape h ds ∧ n = "#" ++ String.mk ds) := by
  refine ⟨?_, ?_, ?_⟩
  · intro doc selectors pat loc out hex it hmem
    obtain ⟨ext, hs, hout, _, _, hfa⟩ := collectGo_hrefs pat loc _ [] [] out hex
    have hmem' : it ∈ ext := by
      rw [hout] at hmem
      simpa using hmem
    obtain ⟨b, _, hrb⟩ := forall2_mem_left hfa it hmem'
    exact ⟨b, hrb⟩
  · intro h
    unfold extractNumber
    constructor
    · intro hsome
      cases hf : findPI h.toList with
      | none => rw [hf] at hsome; cases hsome
      | some ds =>
        obtain ⟨h1, h2, pre, post, h3, h4⟩ := findPI_some_shape _ _ hf
        exact ⟨ds, h1, h2, pre, post, h3, h4⟩
    · rintro ⟨ds, h1, h2, pre, post, h3, h4⟩
      have hsome : (findPI h.toList).isSome = true := by
        rcases h3 with h3 | h3
        · have h3' : h.toList = pre ++ (pullSeg ++ (ds ++ post)) := by
            rw [h3]; simp [List.append_assoc]
          rw [h3']
          exact findPI_isSome_of_shape pre pullSeg ds post (Or.inl rfl) h1 h2 h4
        · have h3' : h.toList = pre ++ (issuesSeg ++ (ds ++ post)) := by
            rw [h3]; simp [List.append_assoc]
          rw [h3']
          exact findPI_isSome_of_shape pre issuesSeg ds post (Or.inr rfl) h1 h2 h4
      cases hf : findPI h.toList with
      | none => rw [hf] at hsome; cases hsome
      | some ds0 => simp
  · intro h n he
    unfold extractNumber at he
    cases hf : findPI h.toList with
    | none => rw [hf] at he; cases he
    | some ds =>
      rw [hf] at he
      obtain ⟨h1, h2, pre, post, h3, h4⟩ := findPI_some_shape _ _ hf
      exact ⟨ds, ⟨h1, h2, pre, post, h3, h4⟩, (Option.some.inj he).symm⟩

/-- Witness for C6 (amended) at the concrete query-string document. -/
theorem c6_witness :
    ∃ h, ItemFromHref exLoc
      ⟨"Strange link", "https://github.com/a?q=/pull/5", some "#5"⟩ h :=
  c6_amended_number_parsing.1 [exStrange] tagsSelectors none exLoc
    [⟨"Strange link", "https://github.com/a?q=/pull/5", some "#5"⟩]
    (by decide) _ (by decide)

/-- C7 fails as stated: the cited generic extractors have no
user/organization-profile exclusion — a link marked
`data-hovercard-type="user"` is emitted (the hovercard marker even
serves as a positive title signal). -/
theorem c7_counterexample_profile_link_emitted :
    genericExtract [exUserLink] exLoc =
      [⟨"torvalds", "https://github.com/torvalds", none⟩] ∧
    getAttr exUserLink "data-hovercard-type" = some "user" := by
  refine ⟨by decide, by decide⟩

/-- C7 (amended): every item of a generic-mode result has a trimmed
title of length within [3, 300] and stems from a raw href that differs
from the current path, is not a fragment, and resolved to a same-origin
URL passing the deny-list and asset filters; there is no exclusion of
user/organization profile links. -/
theorem c7_amended_generic_exclusions (doc : Doc) (loc : Loc) :
    ∀ it ∈ genericExtract doc loc, GoodGeneric loc it := by
  intro it hmem
  unfold genericExtract at hmem
  rcases genericGo_mem loc _ [] [] it hmem with hm | hg
  · cases hm
  · exact hg

/-- Witness for C7 (amended) at the profile-link document. -/
theorem c7_witness :
    GoodGeneric exLoc ⟨"torvalds", "https://github.com/torvalds", none⟩ :=
  c7_amended_generic_exclusions [exUserLink] exLoc _ (by decide)

/-- C8 fails as stated: specific extractors have no origin check and
their filters can match cross-origin hrefs — the tags extractor emits an
item on a foreign origin. -/
theorem c8_counterexample_cross_origin_specific :
    extractLinks [exCross] tagsSelectors none exLoc =
      some [⟨"v1.0.0", "https://evil.com/x/tree/main", none⟩] ∧
    resolveHref "https://evil.com/x/tree/main" exLoc.origin =
      some ⟨"https://evil.com", "/x/tree/main",
        "https://evil.com/x/tree/main"⟩ ∧
    exLoc.origin = "https://github.com" := by
  refine ⟨by decide, by decide, rfl⟩

/-- C8 (amended): the generic extractor does exclude cross-origin
targets — every generic-mode item resolves on the current origin;
specific-mode items carry no such guarantee. -/
theorem c8_amended_generic_same_origin (doc : Doc) (loc : Loc) :
    ∀ it ∈ genericExtract doc loc,
      ∃ h u, resolveHref h loc.origin = some u ∧ it.url = u.href ∧
        u.origin = loc.origin := by
  intro it hmem
  unfold genericExtract at hmem
  rcases genericGo_mem loc _ [] [] it hmem with hm | hg
  · cases hm
  · obtain ⟨_, _, h0, u, hr, hurl, horig, _⟩ := hg
    exact ⟨h0, u, hr, hurl, horig⟩

/-- Witness for C8 (amended) at a concrete generic run. -/
theorem c8_witness :
    ∃ h u, resolveHref h exLoc.origin = some u ∧
      (⟨"torvalds", "https://github.com/torvalds", none⟩ : Item).url = u.href ∧
      u.origin = exLoc.origin :=
  c8_amended_generic_same_origin [exUserLink] exLoc _ (by decide)
